import Mathlib

/-!
Verification development for the `irc-socket` package (`src/irc-socket.js`).

JavaScript strings are embedded as `List Char`; stateful session code is
embedded as explicit state passing over the structure `St`; fallible code
(JS exceptions) returns `Except String _`.  The two external runtime
builtins used by the source, `String.prototype.normalize` (Unicode NFC)
and `Buffer.from(_).toString("base64")`, are taken as opaque function
parameters `norm` and `b64`: theorems quantify over them, witnesses
instantiate them with `id`.
-/

namespace IrcSocket

/-- Shorthand: a Lean string literal as the `List Char` it denotes. -/
def chars (s : String) : List Char := s.toList

/-- Helper for the non-separator case of JS `String.prototype.split`:
prepend a character to the first piece of a split result. -/
def consHead (c : Char) : List (List Char) → List (List Char)
  | h :: t => (c :: h) :: t
  | [] => [[c]]

/-- `data.split("\r\n")` from `onData` (src/irc-socket.js line 124):
leftmost, non-overlapping split on the two-character separator CRLF,
keeping empty pieces, with `"".split(..) = [""]`. -/
def splitCRLF : List Char → List (List Char)
  | [] => [[]]
  | [c] => [[c]]
  | c :: d :: rest =>
    if c = '\r' ∧ d = '\n' then [] :: splitCRLF rest
    else consHead c (splitCRLF (d :: rest))

/-- `line.split(" ")` from `startupHandler` (src/irc-socket.js line 193):
split on a single space, keeping empty pieces. -/
def splitSpace : List Char → List (List Char)
  | [] => [[]]
  | c :: rest =>
    if c = ' ' then [] :: splitSpace rest
    else consHead c (splitSpace rest)

/-- `array.join(" ")` used by `raw` on array messages
(src/irc-socket.js line 412). -/
def joinSpace : List (List Char) → List Char
  | [] => []
  | [x] => x
  | x :: xs => x ++ ' ' :: joinSpace xs

/-- The `includes` helper (src/irc-socket.js lines 16-18):
`array.indexOf(value) !== -1`. -/
def includes {α} [DecidableEq α] (array : List α) (value : α) : Bool :=
  array.contains value

/-- Whether `pat` occurs in `s` at index `i`. -/
def occursAt (pat s : List Char) (i : Nat) : Bool :=
  pat.isPrefixOf (s.drop i)

/-- JS `string.lastIndexOf(pat)`: the largest index at which `pat`
occurs, `-1` when it does not occur. -/
def jsLastIndexOf (s pat : List Char) : Int :=
  match ((List.range (s.length + 1)).filter (fun i => occursAt pat s i)).getLast? with
  | some i => (i : Int)
  | none => -1

/-- The `endsWith` helper (src/irc-socket.js lines 28-30):
the last index at which the suffix candidate occurs must equal
`string.length` minus the candidate's length. -/
def endsWith (string post : List Char) : Bool :=
  jsLastIndexOf string post = (string.length : Int) - (post.length : Int)

/-- JS `line.indexOf(":")` (src/irc-socket.js line 81): index of the
first occurrence, `-1` when absent. -/
def jsIndexOfColon : List Char → Int
  | [] => -1
  | c :: rest =>
    if c = ':' then 0
    else if jsIndexOfColon rest = -1 then -1 else jsIndexOfColon rest + 1

/-- JS `string.slice(i)` for a possibly negative start index:
a negative index counts from the end, clamped at `0`. -/
def jsSliceFrom (s : List Char) (i : Int) : List Char :=
  if i < 0 then s.drop ((s.length : Int) + i).toNat
  else s.drop i.toNat

/-- JS `string.slice(0, n)`. -/
def jsTake (s : List Char) (n : Nat) : List Char := s.take n

/-- The connect-failure discriminants (src/irc-socket.js lines 32-39). -/
inductive ConnectFailure
  | killed
  | nicknamesUnavailable
  | badProxyConfiguration
  | missingRequiredCapabilities
  | badPassword
  | socketEnded
  deriving DecidableEq

/-- The payload of a successful settlement (src/irc-socket.js lines
286-289).  Both fields may be the JS value `undefined`, modelled as
`none`: `acknowledgedCapabilities` and `nickname` are uninitialized
`let`-bindings when no capability handshake or NICK happened. -/
structure OkData where
  capabilities : Option (List (List Char))
  nickname : Option (List Char)
  deriving DecidableEq

/-- The settlement of the one-shot `startupPromise`. -/
inductive Outcome
  | ok (d : OkData)
  | fail (f : ConnectFailure)
  deriving DecidableEq

/-- `status := ["initialized", "connecting", "starting", "running",
"closed"]` (src/irc-socket.js line 46). -/
inductive Status
  | initialized
  | connecting
  | starting
  | running
  | closed
  deriving DecidableEq

/-- The WEBIRC proxy configuration (README / src/irc-socket.js line 330). -/
structure Proxy where
  password : List Char
  username : List Char
  hostname : List Char
  ip : List Char
  deriving DecidableEq

/-- The `capabilities` config object.  Fields are `Option` because the
JS object may omit them; `connect` defaults them to `[]`
(src/irc-socket.js lines 159-160). -/
structure CapsCfg where
  requires : Option (List (List Char))
  wants : Option (List (List Char))
  deriving DecidableEq

/-- The configuration consumed by the constructor
(src/irc-socket.js lines 42-88). -/
structure Config where
  username : List Char
  realname : List Char
  nicknames : List (List Char)
  password : Option (List Char)
  proxy : Option Proxy
  capabilities : Option CapsCfg
  saslUsername : Option (List Char)
  saslPassword : Option (List Char)
  deriving DecidableEq

/-- The session state: the fields of the `IrcSocket` instance plus the
locals of the `connect` closure (src/irc-socket.js line 156) and the
line-framer buffer `lastLine` (line 114).  `settled` models the
`startupPromise`: `none` while pending, first `resolvePromise` wins.
`startupAttached` models whether `startupHandler` is subscribed to
`"data"`. -/
structure St where
  status : Status
  pending : Bool
  settled : Option Outcome
  username : List Char
  realname : List Char
  nicknames : List (List Char)
  password : Option (List Char)
  proxy : Option Proxy
  capabilities : Option CapsCfg
  saslUsername : Option (List Char)
  saslPassword : Option (List Char)
  serverCapabilities : Option (List (List Char))
  acknowledgedCapabilities : Option (List (List Char))
  sentRequests : Option Nat
  respondedRequests : Option Nat
  nickname : Option (List Char)
  writes : List (List Char)
  readyEvents : List OkData
  startupAttached : Bool
  frameBuffer : List Char
  deriving DecidableEq

/-- The constructor (src/irc-socket.js lines 42-88).  `saslUsername` is
set to `config.saslUsername || config.username` only when a (truthy,
hence nonempty) `saslPassword` is configured; `copyJsonMaybe` is a deep
copy, the identity on immutable values. -/
def mkSt (cfg : Config) : St where
  status := .initialized
  pending := true
  settled := none
  username := cfg.username
  realname := cfg.realname
  nicknames := cfg.nicknames
  password := cfg.password
  proxy := cfg.proxy
  capabilities := cfg.capabilities
  saslUsername :=
    match cfg.saslPassword with
    | some _ => some (cfg.saslUsername.getD cfg.username)
    | none => none
  saslPassword := cfg.saslPassword
  serverCapabilities := none
  acknowledgedCapabilities := none
  sentRequests := none
  respondedRequests := none
  nickname := none
  writes := []
  readyEvents := []
  startupAttached := false
  frameBuffer := []

/-- `resolvePromise` (src/irc-socket.js lines 50-53): sets
`pending = false` and resolves the promise; a JS promise settles only on
the first `resolve`, later calls are ignored. -/
def resolvePromise (st : St) (res : Outcome) : St :=
  { st with
    pending := false
    settled := match st.settled with | none => some res | some o => some o }

/-- `isConnected` (src/irc-socket.js lines 430-432). -/
def isConnected (st : St) : Bool :=
  includes [Status.connecting, Status.starting, Status.running] st.status

/-- `isStarted` (src/irc-socket.js lines 426-428). -/
def isStarted (st : St) : Bool := st.status ≠ .initialized

/-- `isReady` (src/irc-socket.js lines 434-436). -/
def isReady (st : St) : Bool := st.status = .running

/-- A message passed to `raw`: a string or an array of strings. -/
inductive Msg
  | str (s : List Char)
  | arr (xs : List (List Char))
  deriving DecidableEq

/-- The string actually written: arrays are joined by a single space
(src/irc-socket.js lines 411-413). -/
def joinMsg : Msg → List Char
  | .str s => s
  | .arr xs => joinSpace xs

/-- `raw` (src/irc-socket.js lines 406-420): no-op unless connected,
then join arrays, throw on an embedded newline, else write
`message + "\r\n"`. -/
def raw (st : St) (message : Msg) : Except String St :=
  if ¬ isConnected st then pure st
  else
    let message := joinMsg message
    if message.contains '\n' then
      throw "Newline detected in message. Use multiple raws instead."
    else
      pure { st with writes := st.writes ++ [message ++ chars "\r\n"] }

/-- `sendUser` (src/irc-socket.js lines 175-177):
`format("USER %s 8 * :%s", this.username, this.realname)`. -/
def sendUser (st : St) : Except String St :=
  raw st (.str (chars "USER " ++ st.username ++ chars " 8 * :" ++ st.realname))

/-- `sendNick` (src/irc-socket.js lines 179-190): on an empty nickname
list, send `QUIT` and settle the nicknames-unavailable failure;
otherwise pop the head into the `nickname` local and send `NICK`. -/
def sendNick (st : St) : Except String St :=
  match st.nicknames with
  | [] => do
    let st ← raw st (.str (chars "QUIT"))
    pure (resolvePromise st (.fail .nicknamesUnavailable))
  | nickname :: rest => do
    let st := { st with nickname := some nickname, nicknames := rest }
    raw st (.arr [chars "NICK", nickname])

/-- JS `x += 1` on a closure variable that may be `undefined`; the
`undefined` case is unreachable here (both counters are initialized at
transport-connect whenever capability negotiation is entered). -/
def jsIncr : Option Nat → Option Nat
  | some n => some (n + 1)
  | none => none

/-- Accessing a property/method of a possibly-`undefined` JS value:
throws a `TypeError` on `undefined`. -/
def jsExpect {α} (v : Option α) : Except String α :=
  match v with
  | some a => pure a
  | none => throw "TypeError: undefined"

/-- The tail of the `CAP` branch (src/irc-socket.js lines 258-268): when
every `CAP REQ` has been answered, send `CAP END` (unless SASL is in
flight), then `USER`, then `NICK`.  The comparison is on the possibly
`undefined` counters (`undefined === undefined` is true). -/
def afterCapResponse (st : St) : Except String St := do
  if st.sentRequests = st.respondedRequests then
    let st ← if st.saslPassword.isNone then raw st (.str (chars "CAP END")) else pure st
    let st ← sendUser st
    sendNick st
  else
    pure st

/-- One iteration of the `capabilities.wants` forEach
(src/irc-socket.js lines 230-233). -/
def capReqWant (st : St) (capability : List Char) : Except String St := do
  let st ← raw st (.str (chars "CAP REQ :" ++ capability))
  pure { st with sentRequests := jsIncr st.sentRequests }

/-- The wanted-capabilities request loop of the `CAP * LS` branch
(src/irc-socket.js lines 226-233): one `CAP REQ` per wanted capability
the server offers.  The `LS` branch then `return`s (line 235). -/
def capLsWants (capsObj : CapsCfg) (serverCapabilities : List (List Char))
    (st : St) : Except String St := do
  let wants ← jsExpect capsObj.wants
  (wants.filter (fun capability => includes serverCapabilities capability)).foldlM
    capReqWant st

/-- The value of a possibly-`undefined` JS string when concatenated:
`undefined` stringifies to `"undefined"`. -/
def jsStr (v : Option (List Char)) : List Char :=
  match v with
  | some s => s
  | none => chars "undefined"

/-- The `CAP * LS` branch (src/irc-socket.js lines 209-235). -/
def capLsBranch (st : St) (parts : List (List Char)) : Except String St := do
  -- serverCapabilities = parts.slice(4);
  -- serverCapabilities[0] = serverCapabilities[0].slice(1)
  match parts.drop 4 with
  | [] => throw "TypeError: undefined"
  | c0 :: crest => do
    let serverCapabilities := c0.drop 1 :: crest
    let st := { st with serverCapabilities := some serverCapabilities }
    let capsObj ← jsExpect st.capabilities
    let requires ← jsExpect capsObj.requires
    if requires.length ≠ 0 then
      if requires.all (fun capability => includes serverCapabilities capability) then do
        let st ← raw st (.str (chars "CAP REQ :" ++ joinSpace requires))
        let st := { st with sentRequests := jsIncr st.sentRequests }
        capLsWants capsObj serverCapabilities st
      else do
        -- QUIT, settle, and `return` out of the handler
        let st ← raw st (.str (chars "QUIT"))
        pure (resolvePromise st (.fail .missingRequiredCapabilities))
    else
      capLsWants capsObj serverCapabilities st

/-- The `CAP * NAK` branch (src/irc-socket.js lines 236-244). -/
def capNakBranch (st : St) (parts : List (List Char)) : Except String St := do
  let st := { st with respondedRequests := jsIncr st.respondedRequests }
  let capability := (← jsExpect (parts.get? 4)).drop 1
  let requires ← jsExpect ((← jsExpect st.capabilities).requires)
  if includes requires capability then do
    let st ← raw st (.str (chars "QUIT"))
    pure (resolvePromise st (.fail .missingRequiredCapabilities))
  else
    afterCapResponse st

/-- The `CAP * ACK` branch (src/irc-socket.js lines 245-256). -/
def capAckBranch (st : St) (parts : List (List Char)) : Except String St := do
  let st := { st with respondedRequests := jsIncr st.respondedRequests }
  let capability := (← jsExpect (parts.get? 4)).drop 1
  let wants ← jsExpect ((← jsExpect st.capabilities).wants)
  let acked ← jsExpect st.acknowledgedCapabilities
  let acked := if includes wants capability then acked ++ [capability] else acked
  let st := { st with acknowledgedCapabilities := some acked }
  let st ←
    if includes acked (chars "sasl") then
      raw st (.arr [chars "AUTHENTICATE", chars "PLAIN"])
    else
      pure st
  afterCapResponse st

/-- The `numeric === "CAP"` branch (src/irc-socket.js lines 206-268). -/
def capBranch (st : St) (parts : List (List Char)) : Except String St :=
  if parts.get? 3 = some (chars "LS") then capLsBranch st parts
  else if parts.get? 3 = some (chars "NAK") then capNakBranch st parts
  else if parts.get? 3 = some (chars "ACK") then capAckBranch st parts
  else afterCapResponse st

/-- The `AUTHENTICATE` branch (src/irc-socket.js lines 276-280).
`b64` stands for `Buffer.from(_).toString("base64")`; `undefined`
operands of `+` stringify to `"undefined"`. -/
def authBranch (b64 : List Char → List Char) (st : St) (parts : List (List Char)) :
    Except String St :=
  if parts.get? 1 = some (chars "+") then
    let encPW := b64 (jsStr st.saslUsername ++ [Char.ofNat 0] ++
      jsStr st.saslUsername ++ [Char.ofNat 0] ++ jsStr st.saslPassword)
    raw st (.arr [chars "AUTHENTICATE", encPW])
  else
    pure st

/-- The numeric-001 branch (src/irc-socket.js lines 283-292): mark
`running`, emit `ready`, resolve the promise with the acknowledged
capabilities and the current `nickname`. -/
def welcomeBranch (st : St) : Except String St := do
  let st := { st with status := .running }
  let data : OkData := ⟨st.acknowledgedCapabilities, st.nickname⟩
  let st := { st with readyEvents := st.readyEvents ++ [data] }
  pure (resolvePromise st (.ok data))

/-- The 410/421 branch (src/irc-socket.js lines 293-304). -/
def capFailedBranch (st : St) : Except String St := do
  let capabilities ← jsExpect st.capabilities
  -- JS: `if (this.capabilities.requires)` — this is a truthiness test
  -- on the field, not on its length; after the connect-time defaulting
  -- the field is always an array, and arrays (even empty ones) are
  -- truthy, so `isSome` is the faithful model.
  if capabilities.requires.isSome then do
    let st ← raw st (.str (chars "QUIT"))
    pure (resolvePromise st (.fail .missingRequiredCapabilities))
  else do
    let st ← sendUser st
    sendNick st

/-- `startupHandler` (src/irc-socket.js lines 192-317), the pre-001
line handler; branches follow the source's if/else-if chain in order. -/
def startupHandler (b64 : List Char → List Char) (st : St) (line : List Char) :
    Except String St :=
  let parts := splitSpace line
  if parts.get? 0 = some (chars "ERROR") then
    pure (resolvePromise st (.fail .badProxyConfiguration))
  else if parts.get? 0 = some (chars "PING") then
    pure st
  else
    let numeric := parts.get? 1
    if numeric = some (chars "CAP") then
      capBranch st parts
    else if numeric = some (chars "NOTICE") then
      if endsWith line (chars "Login unsuccessful") then
        pure (resolvePromise st (.fail .badPassword))
      else
        pure st
    else if parts.get? 0 = some (chars "AUTHENTICATE") then
      authBranch b64 st parts
    else if numeric = some (chars "903") then
      raw st (.str (chars "CAP END"))
    else if numeric = some (chars "001") then
      welcomeBranch st
    else if includes [some (chars "410"), some (chars "421")] numeric then
      capFailedBranch st
    else if numeric = some (chars "464") then
      pure (resolvePromise st (.fail .badPassword))
    else if includes [some (chars "431"), some (chars "432"), some (chars "433"),
        some (chars "436"), some (chars "437"), some (chars "484")] numeric then
      sendNick st
    else
      pure st

/-- The constructor's `"data"` listener (src/irc-socket.js lines 78-83):
on a line whose first four characters are `PING`, reply
`PONG <line.slice(line.indexOf(":"))>`.  It is registered before the
startup handler, so it runs first on every emitted line. -/
def autoPong (st : St) (line : List Char) : Except String St :=
  if jsTake line 4 = chars "PING" then
    raw st (.arr [chars "PONG", jsSliceFrom line (jsIndexOfColon line)])
  else
    pure st

/-- Fan-out of one framed line over the `"data"` listeners, in
subscription order: the constructor's auto-PONG listener, then — while
subscribed — the startup handler (src/irc-socket.js line 321). -/
def dispatchLine (b64 : List Char → List Char) (st : St) (line : List Char) :
    Except String St := do
  let st ← autoPong st line
  if st.startupAttached then startupHandler b64 st line else pure st

/-- The framing core of `onData` (src/irc-socket.js lines 124-126):
split the chunk on CRLF, prepend the carried `lastLine` to the first
piece, and carry the popped final piece.  Returns the complete lines
(before normalization) and the new buffer. -/
def framerStep (buffer chunk : List Char) : List (List Char) × List Char :=
  match splitCRLF chunk with
  | [] => ([], buffer)
  | l0 :: rest =>
    let lines := (buffer ++ l0) :: rest
    (lines.dropLast, (lines.getLast?).getD [])

/-- The framer run over a sequence of chunks, emitting
`line.normalize()` for each complete line (src/irc-socket.js lines
127-129).  `norm` stands for Unicode NFC normalization. -/
def framerRun (norm : List Char → List Char) (buffer : List Char) :
    List (List Char) → List (List Char) × List Char
  | [] => ([], buffer)
  | c :: cs =>
    let (emitted, buffer1) := framerStep buffer c
    let (rest, buffer2) := framerRun norm buffer1 cs
    (emitted.map norm ++ rest, buffer2)

/-- `onData` (src/irc-socket.js lines 116-134) for one chunk: frame,
then emit each complete line (normalized) through the `"data"`
listeners.  (The keepalive-timer reset on the same lines is modelled by
the separate watchdog machine below.) -/
def onDataLines (norm b64 : List Char → List Char) (st : St) (chunk : List Char) :
    Except String St := do
  let (lines, buffer) := framerStep st.frameBuffer chunk
  let st := { st with frameBuffer := buffer }
  lines.foldlM (fun st line => dispatchLine b64 st (norm line)) st

/-- One transport `"data"` macrotask: run `onData`, then run the
microtask queue.  When the startup promise has settled, the
`startupPromise.finally` callback (src/irc-socket.js lines 322-324) —
a microtask, so it runs only after the synchronous `onData` callback
returns — removes the startup handler. -/
def processChunk (norm b64 : List Char → List Char) (st : St) (chunk : List Char) :
    Except String St := do
  let st ← onDataLines norm b64 st chunk
  pure (if st.settled.isSome then { st with startupAttached := false } else st)

/-- Modelled from the spec: the detachment timing §4.3 asserts —
"when the outcome settles (by any path), the startup handler must be
detached atomically before the next inbound line fans out" — i.e. a
line is offered to the startup handler only while the outcome is still
pending, even within a single chunk.  Used only to compare against the
code's actual `processChunk`. -/
def specProcessChunk (norm b64 : List Char → List Char) (st : St) (chunk : List Char) :
    Except String St := do
  let (lines, buffer) := framerStep st.frameBuffer chunk
  let st := { st with frameBuffer := buffer }
  let st ← lines.foldlM (fun st line => do
    let line := norm line
    let st ← autoPong st line
    if st.startupAttached ∧ st.settled = none then
      startupHandler b64 st line
    else
      pure st) st
  pure (if st.settled.isSome then { st with startupAttached := false } else st)

/-- The synchronous state initialization of the connect handler
(src/irc-socket.js lines 153-173 and 321): mark `starting`, default the
capability config and initialize the request counters and
`acknowledgedCapabilities`, and subscribe the startup handler. -/
def connectInit (st : St) : St :=
  let st := { st with status := Status.starting }
  let st :=
    match st.capabilities with
    | some caps =>
      let caps : CapsCfg :=
        { requires := some (caps.requires.getD [])
          wants := some (caps.wants.getD []) }
      { st with
        capabilities := some caps
        acknowledgedCapabilities := some (caps.requires.getD [])
        sentRequests := some 0
        respondedRequests := some 0 }
    | none => st
  { st with startupAttached := true }

/-- Step 1 of the connect handler: send `WEBIRC` when a proxy is
configured (src/irc-socket.js lines 326-331). -/
def proxyStep (st : St) : Except String St :=
  match st.proxy with
  | some proxy =>
    raw st (.arr [chars "WEBIRC", proxy.password, proxy.username,
      proxy.hostname, proxy.ip])
  | none => pure st

/-- Step 2 of the connect handler: send `PASS` when a password is
configured (src/irc-socket.js lines 333-337). -/
def passwordStep (st : St) : Except String St :=
  match st.password with
  | some password => raw st (.arr [chars "PASS", password])
  | none => pure st

/-- Steps 3-5 of the connect handler: either open capability
negotiation with `CAP LS`, or go straight to `USER`/`NICK`
(src/irc-socket.js lines 339-348). -/
def capsTailStep (st : St) : Except String St :=
  match st.capabilities with
  | some _ => raw st (.str (chars "CAP LS"))
  | none => do
    let st ← sendUser st
    sendNick st

/-- The `connection.once("connect")` handler (src/irc-socket.js lines
139-349): ignored when `end()` already ran (`pending` false), else the
initialization and the startup write sequence. -/
def onConnect (st : St) : Except String St := do
  if ¬ st.pending then pure st
  else do
    let st := connectInit st
    let st ← proxyStep st
    let st ← passwordStep st
    capsTailStep st

/-- `connect` (src/irc-socket.js lines 383-392): throws when already
started, else transitions to `connecting`.  (The transport `connect`
call and handler installation carry no session-state effect here.) -/
def connect (st : St) : Except String St :=
  if isStarted st then throw "Cannot restart an irc Socket."
  else pure { st with status := .connecting }

/-- The method `end` (src/irc-socket.js lines 394-404): no-op unless
connected; settles `Fail(SocketEnded)` if still pending; requests
transport end. -/
def endSocket (st : St) : St :=
  if ¬ isConnected st then st
  else if st.pending then resolvePromise st (.fail .socketEnded)
  else st

/-- The `connection.on("error")` handler (src/irc-socket.js lines
351-354): sets status `closed` and emits `error`. -/
def onError (st : St) : St :=
  { st with status := .closed }

/-- The `connection.on("close")` handler (src/irc-socket.js lines
356-362): settles `Fail(Killed)` when the close arrives during
`starting` or `connecting`, then sets status `closed`. -/
def onClose (st : St) : St :=
  let st :=
    if st.status = .starting ∨ st.status = .connecting then
      resolvePromise st (.fail .killed)
    else st
  { st with status := .closed }

/-- The `connection.on("end")` handler (src/irc-socket.js lines
364-373): settles `Fail(SocketEnded)` if still pending, and clears the
watchdog timer. -/
def onEnd (st : St) : St :=
  if st.pending then resolvePromise st (.fail .socketEnded) else st

/-! The keepalive watchdog (src/irc-socket.js lines 98-134), modelled as
a discrete-event machine: `setTimeout`/`clearTimeout` with the single
handle `timeout` becomes a phase marker recording which callback the
one pending timer would run, and a `fire` event stands for that timer
elapsing (a full `timeout_ms` with no intervening `clearTimeout`). -/

/-- Which callback the single pending `timeout` handle would run. -/
inductive WdPhase
  | idle
  | awaitingSilence
  | awaitingPong
  deriving DecidableEq

/-- Watchdog events: transport-connect (line 155), an inbound data
chunk (lines 131-133), and the pending timer elapsing. -/
inductive WdEvent
  | connect
  | dataChunk
  | fire
  deriving DecidableEq

/-- Watchdog state: the timer phase, the `PING :ignored` writes of
`onSilence`, the `timeout` emissions of `onNoPong`, and whether the
constructor's `timeout` listener (line 85-87) has called `end`. -/
structure WdSt where
  phase : WdPhase
  pingWrites : Nat
  timeoutEmits : Nat
  endCalled : Bool
  deriving DecidableEq

/-- Watchdog state before transport-connect: no timer pending. -/
def wdInit : WdSt := ⟨.idle, 0, 0, false⟩

/-- One watchdog transition.  `connect` schedules `onSilence`
(line 155); a data chunk clears the pending timer and re-schedules
`onSilence` (lines 131-133); a firing timer runs `onSilence` — write
`PING :ignored`, schedule `onNoPong` (lines 100-103) — or `onNoPong` —
emit `timeout`, upon which the constructor's listener calls `end`
(lines 85-87, 104-106). -/
def wdStep (s : WdSt) : WdEvent → WdSt
  | .connect => { s with phase := .awaitingSilence }
  | .dataChunk => { s with phase := .awaitingSilence }
  | .fire =>
    match s.phase with
    | .idle => s
    | .awaitingSilence =>
      { s with phase := .awaitingPong, pingWrites := s.pingWrites + 1 }
    | .awaitingPong =>
      { s with phase := .idle, timeoutEmits := s.timeoutEmits + 1, endCalled := true }

/-- A watchdog run over an event sequence. -/
def wdRun (s : WdSt) (events : List WdEvent) : WdSt :=
  events.foldl wdStep s

/-! Derived observations used by the theorems. -/

/-- Strip the trailing CRLF from a recorded write. -/
def stripCRLF (w : List Char) : List Char := w.take (w.length - 2)

/-- The `NICK` messages among the recorded writes. -/
def nickWrites (ws : List (List Char)) : List (List Char) :=
  ws.filter (fun w => (chars "NICK ").isPrefixOf w)

/-- The nickname carried by the most recent `NICK` write, if any. -/
def lastNickSent (ws : List (List Char)) : Option (List Char) :=
  (nickWrites ws).getLast?.map (fun w => stripCRLF (w.drop 5))

/-- The nickname-rejection numerics (src/irc-socket.js line 309). -/
def rejectionNumerics : List (List Char) :=
  [chars "431", chars "432", chars "433", chars "436", chars "437", chars "484"]

/-- A line that the startup handler routes to its nickname-rejection
branch: its second whitespace token is one of the rejection numerics and
its first token is none of the specially handled commands. -/
def RejLine (line : List Char) : Prop :=
  '\n' ∉ line ∧
  ∃ p0 p1 ps, splitSpace line = p0 :: p1 :: ps ∧
    p0 ≠ chars "ERROR" ∧ p0 ≠ chars "PING" ∧ p0 ≠ chars "AUTHENTICATE" ∧
    p1 ∈ rejectionNumerics

/-- Step-preservation bundle: settlements are stable, connectivity is
stable, and (while connected) the `nickname` local continues to name the
most recently written `NICK`. -/
def Pres (st st2 : St) : Prop :=
  (∀ o, st.settled = some o → st2.settled = some o) ∧
  (isConnected st = true → isConnected st2 = true) ∧
  (isConnected st = true → st.nickname = lastNickSent st.writes →
    st2.nickname = lastNickSent st2.writes)

/-- Nickname-consumption trace between two session states: the `NICK`
writes gained are exactly, in order, the nicknames consumed from the
front of the remaining list.  `sendNick` is the only writer of `NICK`
lines, and it always pops the head of `nicknames`, so this is invariant
under every session operation (while the transport is connected, so
that `raw` actually writes). -/
def NickTrace (st st2 : St) : Prop :=
  ∃ j, st2.nicknames = st.nicknames.drop j ∧
    nickWrites st2.writes = nickWrites st.writes ++
      (st.nicknames.take j).map (fun n => chars "NICK " ++ n ++ chars "\r\n")

/-! Concrete configurations and states used by witnesses and
counterexamples, mirroring `baseConfig` of src/test/irc-socket.js. -/

/-- The minimal test configuration (`baseConfig`). -/
def happyCfg : Config where
  username := chars "testuser"
  realname := chars "realbot"
  nicknames := [chars "testbot"]
  password := none
  proxy := none
  capabilities := none
  saslUsername := none
  saslPassword := none

/-- `baseConfig` plus a capability object whose `requires` list is
explicitly empty. -/
def capCfg : Config :=
  { happyCfg with
    capabilities := some { requires := some [], wants := some [chars "account-notify"] } }

/-- The session state right after transport-connect under `happyCfg`:
`USER` and `NICK testbot` sent, startup handler attached. -/
def happyStarting : St where
  status := .starting
  pending := true
  settled := none
  username := chars "testuser"
  realname := chars "realbot"
  nicknames := []
  password := none
  proxy := none
  capabilities := none
  saslUsername := none
  saslPassword := none
  serverCapabilities := none
  acknowledgedCapabilities := none
  sentRequests := none
  respondedRequests := none
  nickname := some (chars "testbot")
  writes := [chars "USER testuser 8 * :realbot\r\n", chars "NICK testbot\r\n"]
  readyEvents := []
  startupAttached := true
  frameBuffer := []

/-- A chunk carrying a settling `001` line and a further `433` line. -/
def settlingChunk : List Char :=
  chars ":irc.test.net 001 testbot :Welcome\r\n:irc.test.net 433 * testbot :x\r\n"

/-- `happyStarting` with the outcome artificially already settled. -/
def settledStarting : St :=
  { happyStarting with settled := some (Outcome.fail ConnectFailure.socketEnded) }

/-- A single complete `001` line as one chunk. -/
def chunk001 : List Char := chars ":irc.test.net 001 testbot :Welcome\r\n"

/-- The session state after `happyStarting` consumes `chunk001`:
running, settled `Ok{capabilities: undefined, nickname: "testbot"}`,
startup handler detached. -/
def happyRunning : St :=
  { happyStarting with
    status := Status.running
    pending := false
    settled := some (Outcome.ok ⟨none, some (chars "testbot")⟩)
    readyEvents := [⟨none, some (chars "testbot")⟩]
    startupAttached := false }

/-! ### Spec-side framing notions (spec.md §4.1), for comparison with
the code's framer -/

/-- Whether a string contains the CRLF separator. -/
def hasCRLF : List Char → Bool
  | [] => false
  | [_] => false
  | c :: d :: rest => if c = '\r' ∧ d = '\n' then true else hasCRLF (d :: rest)

/-- The final piece of a split result (empty exactly when the text ends
in a separator): the spec's reading of the retained `frame_buffer`. -/
def lastSeg (xs : List (List Char)) : List Char := xs.getLast?.getD []

/-- Chunk boundaries that do not split a CRLF pair: no chunk may begin
with LF while the line fragment carried from the previous chunks ends
with CR. -/
def chunksOk (buf : List Char) : List (List Char) → Prop
  | [] => True
  | c :: cs => ¬(buf.getLast? = some '\r' ∧ c.head? = some '\n') ∧
      chunksOk (lastSeg (splitCRLF (buf ++ c))) cs

/-! ### Basic lemmas about the embedding -/

theorem pure_ok_inj {α} {a b : α} (h : (pure a : Except String α) = .ok b) : a = b :=
  Except.ok.inj h

theorem exc_bind_ok {α β} {x : Except String α} {f : α → Except String β} {b : β}
    (h : x >>= f = .ok b) : ∃ a, x = .ok a ∧ f a = .ok b := by
  cases x with
  | ok a => exact ⟨a, rfl, h⟩
  | error e => exact absurd h (by simp [Bind.bind, Except.bind])

theorem raw_not_connected {st : St} {m : Msg} (h : isConnected st = false) :
    raw st m = .ok st := by
  simp [raw, h, pure, Except.pure]

theorem raw_connected {st : St} {m : Msg} (h : isConnected st = true)
    (hn : '\n' ∉ joinMsg m) :
    raw st m = .ok { st with writes := st.writes ++ [joinMsg m ++ chars "\r\n"] } := by
  simp [raw, h, hn, pure, Except.pure]

theorem raw_ok_shape {st st2 : St} {m : Msg} (h : raw st m = .ok st2) :
    st2 = st ∨ st2 = { st with writes := st.writes ++ [joinMsg m ++ chars "\r\n"] } := by
  by_cases hc : isConnected st
  · by_cases hn : '\n' ∈ joinMsg m
    · rw [raw, if_neg (by simp [hc]), if_pos (by simpa using hn)] at h
      exact absurd h (by simp [throw, throwThe, MonadExceptOf.throw])
    · rw [raw_connected hc hn] at h
      exact Or.inr (Except.ok.inj h).symm
  · rw [raw_not_connected (by simpa using hc)] at h
    exact Or.inl (Except.ok.inj h).symm

theorem Pres_refl (st : St) : Pres st st :=
  ⟨fun _ h => h, fun h => h, fun _ h => h⟩

theorem Pres_trans {a b c : St} (h1 : Pres a b) (h2 : Pres b c) : Pres a c :=
  ⟨fun o h => h2.1 o (h1.1 o h),
   fun h => h2.2.1 (h1.2.1 h),
   fun hc hn => h2.2.2 (h1.2.1 hc) (h1.2.2 hc hn)⟩

theorem nickWrites_append (ws ws2 : List (List Char)) :
    nickWrites (ws ++ ws2) = nickWrites ws ++ nickWrites ws2 := by
  simp [nickWrites, List.filter_append]

theorem lastNickSent_append_not_nick {ws : List (List Char)} {w : List Char}
    (h : (chars "NICK ").isPrefixOf w = false) :
    lastNickSent (ws ++ [w]) = lastNickSent ws := by
  simp [lastNickSent, nickWrites_append, nickWrites, h]

theorem lastNickSent_append_nick (ws : List (List Char)) (n : List Char) :
    lastNickSent (ws ++ [chars "NICK " ++ n ++ chars "\r\n"]) = some n := by
  have hpre : (chars "NICK ").isPrefixOf (chars "NICK " ++ n ++ chars "\r\n") = true := by
    rw [List.isPrefixOf_iff_prefix, List.append_assoc]
    exact List.prefix_append _ _
  have hfilter : nickWrites (ws ++ [chars "NICK " ++ n ++ chars "\r\n"]) =
      nickWrites ws ++ [chars "NICK " ++ n ++ chars "\r\n"] := by
    simp [nickWrites_append, nickWrites, hpre]
  have hdrop : (chars "NICK " ++ n ++ chars "\r\n").drop 5 = n ++ chars "\r\n" := by
    rw [List.append_assoc]
    have : (chars "NICK ").length = 5 := rfl
    rw [← this, List.drop_left]
  have hstrip : stripCRLF (n ++ chars "\r\n") = n := by
    have hlen : (n ++ chars "\r\n").length = n.length + 2 := by simp [chars]
    have : (chars "\r\n").length = 2 := rfl
    simp only [stripCRLF, hlen, Nat.add_sub_cancel]
    exact List.take_left n _
  rw [lastNickSent, hfilter, List.getLast?_concat]
  simp only [Option.map_some']
  rw [hdrop, hstrip]

theorem Pres_writes_append {st : St} {extra : List (List Char)}
    (h : ∀ w ∈ extra, (chars "NICK ").isPrefixOf w = false) :
    Pres st { st with writes := st.writes ++ extra } := by
  refine ⟨fun _ h => h, fun h => h, fun _ hn => ?_⟩
  have : lastNickSent (st.writes ++ extra) = lastNickSent st.writes := by
    have : nickWrites extra = [] := by
      simp only [nickWrites, List.filter_eq_nil_iff]
      intro w hw
      simp [h w hw]
    simp [lastNickSent, nickWrites_append, this]
  simpa [this] using hn

theorem Pres_resolvePromise (st : St) (r : Outcome) : Pres st (resolvePromise st r) := by
  refine ⟨fun o h => ?_, fun h => h, fun _ hn => hn⟩
  simp [resolvePromise, h]

/-- A message whose first character is not `N` is no `NICK` write even
after the CRLF is appended. -/
theorem not_nick_of_head {c : Char} {rest : List Char} (h : c ≠ 'N') :
    (chars "NICK ").isPrefixOf (c :: rest) = false := by
  have e : chars "NICK " = 'N' :: chars "ICK " := rfl
  rw [e]
  simp only [List.isPrefixOf]
  simp [h.symm]

theorem Pres_raw_head {st st2 : St} {m : Msg} (c : Char) (rest : List Char)
    (h : raw st m = .ok st2) (hm : joinMsg m = c :: rest) (hc : c ≠ 'N') : Pres st st2 := by
  rcases raw_ok_shape h with rfl | rfl
  · exact Pres_refl _
  · refine Pres_writes_append ?_
    intro w hw
    simp only [List.mem_singleton] at hw
    subst hw
    rw [hm]
    exact not_nick_of_head hc

theorem resolvePromise_settled_some {st : St} {o : Outcome} (r : Outcome)
    (h : st.settled = some o) : (resolvePromise st r).settled = some o := by
  simp [resolvePromise, h]

theorem Pres_of_eq_fields {st st2 : St} (hset : st2.settled = st.settled)
    (hstat : st2.status = st.status) (hnick : st2.nickname = st.nickname)
    (hw : st2.writes = st.writes) : Pres st st2 := by
  refine ⟨fun o ho => by rw [hset]; exact ho,
    fun hc => by simpa [isConnected, hstat] using hc,
    fun hc hn => by rw [hnick, hw]; exact hn⟩

theorem sendUser_pres {st st2 : St} (h : sendUser st = .ok st2) : Pres st st2 :=
  Pres_raw_head 'U' (chars "SER " ++ st.username ++ chars " 8 * :" ++ st.realname)
    h (by rfl) (by decide)

theorem sendNick_pres {st st2 : St} (h : sendNick st = .ok st2) : Pres st st2 := by
  unfold sendNick at h
  cases hn : st.nicknames with
  | nil =>
    simp only [hn] at h
    obtain ⟨a, ha, hb⟩ := exc_bind_ok h
    have hp : Pres st a := Pres_raw_head 'Q' (chars "UIT") ha (by rfl) (by decide)
    cases pure_ok_inj hb
    exact Pres_trans hp (Pres_resolvePromise a _)
  | cons n rest =>
    simp only [hn] at h
    refine ⟨?_, ?_, ?_⟩
    · intro o ho
      rcases raw_ok_shape h with rfl | rfl <;> simpa using ho
    · intro hc
      rcases raw_ok_shape h with rfl | rfl <;> simpa [isConnected] using hc
    · intro hc _
      have hc2 : isConnected { st with nickname := some n, nicknames := rest } = true := hc
      by_cases hmem : '\n' ∈ joinMsg (.arr [chars "NICK", n])
      · rw [raw, if_neg (by simp [hc2]), if_pos (by simpa using hmem)] at h
        exact absurd h (by simp [throw, throwThe, MonadExceptOf.throw])
      · rw [raw_connected hc2 hmem] at h
        cases Except.ok.inj h
        have hjoin : joinMsg (.arr [chars "NICK", n]) ++ chars "\r\n" =
            chars "NICK " ++ n ++ chars "\r\n" := rfl
        simp only [hjoin]
        exact (lastNickSent_append_nick st.writes n).symm

theorem capReqWant_pres {st st2 : St} {c : List Char}
    (h : capReqWant st c = .ok st2) : Pres st st2 := by
  unfold capReqWant at h
  obtain ⟨a, ha, hb⟩ := exc_bind_ok h
  have hp : Pres st a := Pres_raw_head 'C' (chars "AP REQ :" ++ c) ha (by rfl) (by decide)
  cases pure_ok_inj hb
  exact Pres_trans hp (Pres_of_eq_fields rfl rfl rfl rfl)

theorem foldlM_pres {α} {f : St → α → Except String St}
    (hf : ∀ st a st2, f st a = .ok st2 → Pres st st2) :
    ∀ (l : List α) (st st2 : St), List.foldlM f st l = .ok st2 → Pres st st2 := by
  intro l
  induction l with
  | nil =>
    intro st st2 h
    rw [List.foldlM_nil] at h
    cases pure_ok_inj h
    exact Pres_refl _
  | cons a l ih =>
    intro st st2 h
    rw [List.foldlM_cons] at h
    obtain ⟨b, hb, hrest⟩ := exc_bind_ok h
    exact Pres_trans (hf st a b hb) (ih b st2 hrest)

theorem capLsWants_pres {capsObj : CapsCfg} {sc : List (List Char)} {st st2 : St}
    (h : capLsWants capsObj sc st = .ok st2) : Pres st st2 := by
  unfold capLsWants at h
  obtain ⟨w, _, hb⟩ := exc_bind_ok h
  exact foldlM_pres (fun st a st2 h => capReqWant_pres h) _ st st2 hb

theorem afterCapResponse_pres {st st2 : St} (h : afterCapResponse st = .ok st2) :
    Pres st st2 := by
  simp only [afterCapResponse] at h
  split at h
  · split at h
    · obtain ⟨a, ha, h⟩ := exc_bind_ok h
      obtain ⟨b, hb, h⟩ := exc_bind_ok h
      exact Pres_trans (Pres_raw_head 'C' (chars "AP END") ha (by rfl) (by decide))
        (Pres_trans (sendUser_pres hb) (sendNick_pres h))
    · obtain ⟨a, ha, h⟩ := exc_bind_ok h
      cases pure_ok_inj ha
      obtain ⟨b, hb, h⟩ := exc_bind_ok h
      exact Pres_trans (sendUser_pres hb) (sendNick_pres h)
  · cases pure_ok_inj h
    exact Pres_refl _

theorem autoPong_pres {st st2 : St} {line : List Char}
    (h : autoPong st line = .ok st2) : Pres st st2 := by
  unfold autoPong at h
  split at h
  · exact Pres_raw_head 'P' (chars "ONG" ++ ' ' :: jsSliceFrom line (jsIndexOfColon line))
      h (by rfl) (by decide)
  · cases pure_ok_inj h
    exact Pres_refl _

theorem capLsBranch_pres {st st2 : St} {parts : List (List Char)}
    (h : capLsBranch st parts = .ok st2) : Pres st st2 := by
  unfold capLsBranch at h
  split at h
  · exact absurd h (by simp [throw, throwThe, MonadExceptOf.throw])
  · obtain ⟨capsObj, _, h⟩ := exc_bind_ok h
    obtain ⟨requires, _, h⟩ := exc_bind_ok h
    split at h
    · split at h
      · obtain ⟨a, ha, h⟩ := exc_bind_ok h
        refine Pres_trans ?_ (Pres_trans
          (Pres_raw_head 'C' (chars "AP REQ :" ++ joinSpace requires) ha (by rfl) (by decide))
          (Pres_trans ?_ (capLsWants_pres h))) <;>
          exact Pres_of_eq_fields rfl rfl rfl rfl
      · obtain ⟨a, ha, h⟩ := exc_bind_ok h
        cases pure_ok_inj h
        refine Pres_trans ?_ (Pres_trans
          (Pres_raw_head 'Q' (chars "UIT") ha (by rfl) (by decide))
          (Pres_resolvePromise _ _))
        exact Pres_of_eq_fields rfl rfl rfl rfl
    · refine Pres_trans ?_ (capLsWants_pres h)
      exact Pres_of_eq_fields rfl rfl rfl rfl

theorem capNakBranch_pres {st st2 : St} {parts : List (List Char)}
    (h : capNakBranch st parts = .ok st2) : Pres st st2 := by
  unfold capNakBranch at h
  obtain ⟨p4, _, h⟩ := exc_bind_ok h
  obtain ⟨capsObj, _, h⟩ := exc_bind_ok h
  obtain ⟨requires, _, h⟩ := exc_bind_ok h
  split at h
  · obtain ⟨a, ha, h⟩ := exc_bind_ok h
    cases pure_ok_inj h
    refine Pres_trans ?_ (Pres_trans
      (Pres_raw_head 'Q' (chars "UIT") ha (by rfl) (by decide))
      (Pres_resolvePromise _ _))
    exact Pres_of_eq_fields rfl rfl rfl rfl
  · refine Pres_trans ?_ (afterCapResponse_pres h)
    exact Pres_of_eq_fields rfl rfl rfl rfl

theorem capAckBranch_pres {st st2 : St} {parts : List (List Char)}
    (h : capAckBranch st parts = .ok st2) : Pres st st2 := by
  unfold capAckBranch at h
  obtain ⟨p4, _, h⟩ := exc_bind_ok h
  obtain ⟨capsObj, _, h⟩ := exc_bind_ok h
  obtain ⟨wants, _, h⟩ := exc_bind_ok h
  obtain ⟨acked, _, h⟩ := exc_bind_ok h
  simp only [] at h
  split at h <;> split at h <;>
    first
      | (obtain ⟨b, hb, h⟩ := exc_bind_ok h
         refine Pres_trans ?_ (Pres_trans
           (Pres_raw_head 'A' (chars "UTHENTICATE PLAIN") hb (by rfl) (by decide))
           (afterCapResponse_pres h))
         exact Pres_of_eq_fields rfl rfl rfl rfl)
      | (obtain ⟨b, hb, h⟩ := exc_bind_ok h
         cases pure_ok_inj hb
         refine Pres_trans ?_ (afterCapResponse_pres h)
         exact Pres_of_eq_fields rfl rfl rfl rfl)

theorem capBranch_pres {st st2 : St} {parts : List (List Char)}
    (h : capBranch st parts = .ok st2) : Pres st st2 := by
  unfold capBranch at h
  split at h
  · exact capLsBranch_pres h
  split at h
  · exact capNakBranch_pres h
  split at h
  · exact capAckBranch_pres h
  · exact afterCapResponse_pres h

theorem authBranch_pres {b64 : List Char → List Char} {st st2 : St}
    {parts : List (List Char)} (h : authBranch b64 st parts = .ok st2) : Pres st st2 := by
  unfold authBranch at h
  split at h
  · exact Pres_raw_head 'A'
      (chars "UTHENTICATE" ++ ' ' :: b64 (jsStr st.saslUsername ++ [Char.ofNat 0] ++
        jsStr st.saslUsername ++ [Char.ofNat 0] ++ jsStr st.saslPassword))
      h (by rfl) (by decide)
  · cases pure_ok_inj h
    exact Pres_refl _

theorem welcomeBranch_pres {st st2 : St} (h : welcomeBranch st = .ok st2) : Pres st st2 := by
  unfold welcomeBranch at h
  cases pure_ok_inj h
  refine ⟨?_, ?_, ?_⟩
  · intro o ho
    exact resolvePromise_settled_some _ (by simpa using ho)
  · intro _
    rfl
  · intro _ hn
    exact hn

theorem capFailedBranch_pres {st st2 : St} (h : capFailedBranch st = .ok st2) :
    Pres st st2 := by
  unfold capFailedBranch at h
  obtain ⟨capsObj, _, h⟩ := exc_bind_ok h
  split at h
  · obtain ⟨a, ha, h⟩ := exc_bind_ok h
    cases pure_ok_inj h
    exact Pres_trans (Pres_raw_head 'Q' (chars "UIT") ha (by rfl) (by decide))
      (Pres_resolvePromise _ _)
  · obtain ⟨a, ha, h⟩ := exc_bind_ok h
    exact Pres_trans (sendUser_pres ha) (sendNick_pres h)

theorem startupHandler_pres {b64 : List Char → List Char} {st st2 : St} {line : List Char}
    (h : startupHandler b64 st line = .ok st2) : Pres st st2 := by
  rw [startupHandler] at h
  simp only [] at h
  split at h
  · cases pure_ok_inj h
    exact Pres_resolvePromise _ _
  split at h
  · cases pure_ok_inj h
    exact Pres_refl _
  split at h
  · exact capBranch_pres h
  split at h
  · split at h
    · cases pure_ok_inj h
      exact Pres_resolvePromise _ _
    · cases pure_ok_inj h
      exact Pres_refl _
  split at h
  · exact authBranch_pres h
  split at h
  · exact Pres_raw_head 'C' (chars "AP END") h (by rfl) (by decide)
  split at h
  · exact welcomeBranch_pres h
  split at h
  · exact capFailedBranch_pres h
  split at h
  · cases pure_ok_inj h
    exact Pres_resolvePromise _ _
  split at h
  · exact sendNick_pres h
  · cases pure_ok_inj h
    exact Pres_refl _

theorem dispatchLine_pres {b64 : List Char → List Char} {st st2 : St} {line : List Char}
    (h : dispatchLine b64 st line = .ok st2) : Pres st st2 := by
  unfold dispatchLine at h
  obtain ⟨a, ha, h⟩ := exc_bind_ok h
  have h1 := autoPong_pres ha
  split at h
  · exact Pres_trans h1 (startupHandler_pres h)
  · cases pure_ok_inj h
    exact h1

theorem onDataLines_pres {norm b64 : List Char → List Char} {st st2 : St} {chunk : List Char}
    (h : onDataLines norm b64 st chunk = .ok st2) : Pres st st2 := by
  unfold onDataLines at h
  rcases hfs : framerStep st.frameBuffer chunk with ⟨lines, buffer⟩
  rw [hfs] at h
  simp only [] at h
  refine Pres_trans (@Pres_of_eq_fields st { st with frameBuffer := buffer }
    rfl rfl rfl rfl) ?_
  exact foldlM_pres (fun st l st2 hl => dispatchLine_pres hl) lines _ st2 h

theorem processChunk_pres {norm b64 : List Char → List Char} {st st2 : St} {chunk : List Char}
    (h : processChunk norm b64 st chunk = .ok st2) : Pres st st2 := by
  unfold processChunk at h
  obtain ⟨a, ha, h⟩ := exc_bind_ok h
  cases pure_ok_inj h
  refine Pres_trans (onDataLines_pres ha) ?_
  split <;> exact Pres_of_eq_fields rfl rfl rfl rfl

theorem mem_jsSliceFrom {x : Char} {s : List Char} {i : Int}
    (h : x ∈ jsSliceFrom s i) : x ∈ s := by
  unfold jsSliceFrom at h
  split at h <;> exact List.mem_of_mem_drop h

theorem autoPong_total_shape {st : St} {line : List Char} (hn : '\n' ∉ line) :
    ∃ extra, autoPong st line = .ok { st with writes := st.writes ++ extra } ∧
      ∀ w ∈ extra, (chars "NICK ").isPrefixOf w = false := by
  unfold autoPong
  split
  · by_cases hc : isConnected st
    · have hmem : '\n' ∉ joinMsg (.arr [chars "PONG", jsSliceFrom line (jsIndexOfColon line)]) := by
        intro hx
        have : joinMsg (.arr [chars "PONG", jsSliceFrom line (jsIndexOfColon line)]) =
            chars "PONG" ++ ' ' :: jsSliceFrom line (jsIndexOfColon line) := rfl
        rw [this] at hx
        rcases List.mem_append.mp hx with hx | hx
        · exact absurd hx (by decide)
        · rcases List.mem_cons.mp hx with hx | hx
          · exact absurd hx (by decide)
          · exact hn (mem_jsSliceFrom hx)
      rw [raw_connected hc hmem]
      refine ⟨[joinMsg (.arr [chars "PONG", jsSliceFrom line (jsIndexOfColon line)]) ++
        chars "\r\n"], rfl, ?_⟩
      intro w hw
      simp only [List.mem_singleton] at hw
      subst hw
      exact @not_nick_of_head 'P'
        ((chars "ONG" ++ ' ' :: jsSliceFrom line (jsIndexOfColon line)) ++ chars "\r\n")
        (by decide)
    · rw [raw_not_connected (by simpa using hc)]
      exact ⟨[], by simp, by simp⟩
  · exact ⟨[], by simp [pure, Except.pure], by simp⟩

theorem splitSpace_ne_nil : ∀ s : List Char, splitSpace s ≠ [] := by
  intro s
  induction s with
  | nil => simp [splitSpace]
  | cons c rest ih =>
    rw [splitSpace]
    split
    · simp
    · cases h : splitSpace rest with
      | nil => exact absurd h ih
      | cons a t => simp [consHead]

theorem splitSpace_head_take : ∀ {s t : List Char},
    (splitSpace s).head? = some t → s.take t.length = t := by
  intro s
  induction s with
  | nil =>
    intro t h
    simp [splitSpace] at h
    simp [← h]
  | cons c rest ih =>
    intro t h
    rw [splitSpace] at h
    split at h
    · rw [List.head?_cons] at h
      cases Option.some.inj h
      rfl
    · cases hs : splitSpace rest with
      | nil => exact absurd hs (splitSpace_ne_nil rest)
      | cons a tl =>
        rw [hs] at h
        simp [consHead] at h
        subst h
        simp only [List.length_cons, List.take_succ_cons, List.cons.injEq, true_and]
        exact ih (by rw [hs]; rfl)

theorem getLastOfDropPred : ∀ l : List Char, l ≠ [] →
    ∃ c, l.getLast? = some c ∧ l.drop (l.length - 1) = [c] := by
  intro l
  induction l with
  | nil => intro h; exact absurd rfl h
  | cons a t ih =>
    intro _
    cases t with
    | nil => exact ⟨a, rfl, rfl⟩
    | cons b u =>
      obtain ⟨c, hc, hd⟩ := ih (by simp)
      refine ⟨c, ?_, ?_⟩
      · rw [List.getLast?_cons_cons]
        exact hc
      · have hlen : (a :: b :: u).length - 1 = (b :: u).length - 1 + 1 := by
          simp
        rw [hlen, List.drop_succ_cons, hd]

theorem jsIndexOfColon_ge : ∀ l : List Char, -1 ≤ jsIndexOfColon l := by
  intro l
  induction l with
  | nil => simp [jsIndexOfColon]
  | cons c rest ih =>
    rw [jsIndexOfColon]
    split
    · norm_num
    · split
      · norm_num
      · omega

theorem jsIndexOfColon_not_mem {l : List Char} (h : ':' ∉ l) : jsIndexOfColon l = -1 := by
  induction l with
  | nil => rfl
  | cons c rest ih =>
    rw [jsIndexOfColon]
    rw [if_neg (by intro hc; exact h (hc ▸ List.mem_cons_self c rest))]
    rw [if_pos (ih (fun hm => h (List.mem_cons_of_mem c hm)))]

theorem jsIndexOfColon_drop : ∀ {l : List Char} {i : Nat},
    jsIndexOfColon l = (i : Int) → l.drop i = ':' :: l.drop (i + 1) := by
  intro l
  induction l with
  | nil =>
    intro i h
    exfalso
    rw [show jsIndexOfColon [] = -1 from rfl] at h
    omega
  | cons c rest ih =>
    intro i h
    rw [jsIndexOfColon] at h
    split at h
    · have : i = 0 := by omega
      subst this
      simp_all
    · split at h
      · omega
      · have hge := jsIndexOfColon_ge rest
        have : ∃ j : Nat, jsIndexOfColon rest = (j : Int) := by
          refine ⟨(jsIndexOfColon rest).toNat, ?_⟩
          omega
        obtain ⟨j, hj⟩ := this
        have hij : i = j + 1 := by omega
        subst hij
        simp only [List.drop_succ_cons]
        exact ih hj

/-- C9: when the session status is outside
`{Connecting, Starting, Running}`, `raw` is a complete no-op for any
message — even one containing a newline — because the connectivity
check precedes the newline validation; with a connected status the same
newline message instead raises the programmer-error fault. -/
theorem c9_raw_disconnected_noop :
    (∀ (st : St) (message : Msg), isConnected st = false →
      raw st message = Except.ok st) ∧
    (∀ (st : St) (message : Msg), isConnected st = true → '\n' ∈ joinMsg message →
      raw st message =
        Except.error "Newline detected in message. Use multiple raws instead.") := by
  constructor
  · intro st message h
    exact raw_not_connected h
  · intro st message hc hn
    rw [raw, if_neg (by simp [hc]), if_pos (by simpa using hn)]
    rfl

/-- Witness for C9 at the initialized state of `baseConfig` and at the
post-connect starting state, with a newline-carrying message. -/
theorem c9_witness :
    isConnected (mkSt happyCfg) = false ∧
    raw (mkSt happyCfg) (Msg.str (chars "QUIT\nQUIT")) = Except.ok (mkSt happyCfg) ∧
    isConnected happyStarting = true ∧ '\n' ∈ joinMsg (Msg.str (chars "QUIT\nQUIT")) ∧
    raw happyStarting (Msg.str (chars "QUIT\nQUIT")) =
      Except.error "Newline detected in message. Use multiple raws instead." :=
  ⟨by decide, c9_raw_disconnected_noop.1 _ _ (by decide), by decide, by decide,
   c9_raw_disconnected_noop.2 _ _ (by decide) (by decide)⟩

/-- C10: on an inbound line whose first four characters are `PING` but
which contains no `:`, the auto-PONG reply is `PONG ` followed by only
the last character of the line, because `indexOf(":") === -1` makes
`slice(-1)` take the final character. -/
theorem c10_autopong_no_colon (st : St) (line : List Char)
    (hc : isConnected st = true) (hp : jsTake line 4 = chars "PING")
    (hcolon : ':' ∉ line) (hn : '\n' ∉ line) :
    autoPong st line =
      Except.ok { st with writes :=
        st.writes ++ [chars "PONG " ++ line.drop (line.length - 1) ++ chars "\r\n"] } ∧
    ∃ c, line.getLast? = some c ∧ line.drop (line.length - 1) = [c] := by
  have hlen : 4 ≤ line.length := by
    have h4 : (chars "PING").length = 4 := by decide
    have := congrArg List.length hp
    rw [jsTake, List.length_take, h4] at this
    omega
  have hne : line ≠ [] := by
    intro h
    rw [h] at hlen
    simp at hlen
  have hidx : jsIndexOfColon line = -1 := jsIndexOfColon_not_mem hcolon
  have hslice : jsSliceFrom line (jsIndexOfColon line) = line.drop (line.length - 1) := by
    rw [hidx, jsSliceFrom, if_pos (by norm_num)]
    congr 1
    omega
  have hmem : '\n' ∉ joinMsg (.arr [chars "PONG", jsSliceFrom line (jsIndexOfColon line)]) := by
    intro hx
    have he : joinMsg (.arr [chars "PONG", jsSliceFrom line (jsIndexOfColon line)]) =
        chars "PONG" ++ ' ' :: jsSliceFrom line (jsIndexOfColon line) := rfl
    rw [he] at hx
    rcases List.mem_append.mp hx with hx | hx
    · exact absurd hx (by decide)
    · rcases List.mem_cons.mp hx with hx | hx
      · exact absurd hx (by decide)
      · exact hn (mem_jsSliceFrom hx)
  constructor
  · rw [autoPong, if_pos hp, raw_connected hc hmem, hslice]
    rfl
  · exact getLastOfDropPred line hne

theorem Pres_to_starting {st mid : St} (hset : mid.settled = st.settled)
    (hstat : mid.status = Status.starting) (hnick : mid.nickname = st.nickname)
    (hw : mid.writes = st.writes) : Pres st mid :=
  ⟨fun o ho => by rw [hset]; exact ho,
   fun _ => by rw [isConnected, hstat]; decide,
   fun _ hn => by rw [hnick, hw]; exact hn⟩

theorem connectInit_pres (st : St) : Pres st (connectInit st) := by
  unfold connectInit
  rcases hc : st.capabilities with _ | caps <;> simp only [hc] <;>
    exact Pres_to_starting rfl rfl rfl rfl

theorem proxyStep_pres {st st2 : St} (h : proxyStep st = .ok st2) : Pres st st2 := by
  unfold proxyStep at h
  rcases hp : st.proxy with _ | proxy <;> rw [hp] at h
  · cases pure_ok_inj h
    exact Pres_refl _
  · exact Pres_raw_head 'W'
      (chars "EBIRC" ++ ' ' :: joinSpace [proxy.password, proxy.username,
        proxy.hostname, proxy.ip])
      h (by rfl) (by decide)

theorem passwordStep_pres {st st2 : St} (h : passwordStep st = .ok st2) : Pres st st2 := by
  unfold passwordStep at h
  rcases hp : st.password with _ | password <;> rw [hp] at h
  · cases pure_ok_inj h
    exact Pres_refl _
  · exact Pres_raw_head 'P' (chars "ASS" ++ ' ' :: password) h (by rfl) (by decide)

theorem capsTailStep_pres {st st2 : St} (h : capsTailStep st = .ok st2) : Pres st st2 := by
  unfold capsTailStep at h
  rcases hc : st.capabilities with _ | caps <;> rw [hc] at h
  · obtain ⟨a, ha, h⟩ := exc_bind_ok h
    exact Pres_trans (sendUser_pres ha) (sendNick_pres h)
  · exact Pres_raw_head 'C' (chars "AP LS") h (by rfl) (by decide)

theorem onConnect_pres {st st2 : St} (h : onConnect st = .ok st2) : Pres st st2 := by
  unfold onConnect at h
  split at h
  · cases pure_ok_inj h
    exact Pres_refl _
  · obtain ⟨a, ha, h⟩ := exc_bind_ok h
    obtain ⟨b, hb, h⟩ := exc_bind_ok h
    exact Pres_trans (connectInit_pres st) (Pres_trans (proxyStep_pres ha)
      (Pres_trans (passwordStep_pres hb) (capsTailStep_pres h)))

/-- Witness for C10 on the line `PING` itself: the written reply is
`PONG G`. -/
theorem c10_witness :
    isConnected happyStarting = true ∧ jsTake (chars "PING") 4 = chars "PING" ∧
    ':' ∉ chars "PING" ∧ '\n' ∉ chars "PING" ∧
    autoPong happyStarting (chars "PING") =
      Except.ok { happyStarting with writes :=
        happyStarting.writes ++ [chars "PONG " ++ (chars "PING").drop 3 ++ chars "\r\n"] } :=
  ⟨by decide, by decide, by decide, by decide,
   (c10_autopong_no_colon happyStarting (chars "PING")
     (by decide) (by decide) (by decide) (by decide)).1⟩

/-- C5: a line whose first whitespace-delimited token is `PING` and
which carries a `:` gets the reply `PONG :<text-after-first-colon>`
written, in every status of `{Connecting, Starting, Running}` (the
statuses where `isConnected` holds). -/
theorem c5_autopong_reply (st : St) (line : List Char) (i : Nat)
    (hc : isConnected st = true)
    (htok : (splitSpace line).head? = some (chars "PING"))
    (hidx : jsIndexOfColon line = (i : Int))
    (hn : '\n' ∉ line) :
    autoPong st line =
      Except.ok { st with writes :=
        st.writes ++ [chars "PONG :" ++ line.drop (i + 1) ++ chars "\r\n"] } := by
  have htake : jsTake line 4 = chars "PING" := by
    have := splitSpace_head_take htok
    have h4 : (chars "PING").length = 4 := by decide
    rw [h4] at this
    exact this
  have hdropi : line.drop i = ':' :: line.drop (i + 1) := jsIndexOfColon_drop hidx
  have hslice : jsSliceFrom line (jsIndexOfColon line) = ':' :: line.drop (i + 1) := by
    rw [hidx, jsSliceFrom, if_neg (by omega)]
    simpa using hdropi
  have hmem : '\n' ∉ joinMsg (.arr [chars "PONG", jsSliceFrom line (jsIndexOfColon line)]) := by
    intro hx
    have he : joinMsg (.arr [chars "PONG", jsSliceFrom line (jsIndexOfColon line)]) =
        chars "PONG" ++ ' ' :: jsSliceFrom line (jsIndexOfColon line) := rfl
    rw [he] at hx
    rcases List.mem_append.mp hx with hx | hx
    · exact absurd hx (by decide)
    · rcases List.mem_cons.mp hx with hx | hx
      · exact absurd hx (by decide)
      · exact hn (mem_jsSliceFrom hx)
  rw [autoPong, if_pos htake, raw_connected hc hmem, hslice]
  rfl

/-- Witness for C5, in each of the three connected statuses, on the
line `PING :PINGMESSAGE` (the test suite's ping): reply
`PONG :PINGMESSAGE`. -/
theorem c5_witness :
    (∀ status ∈ [Status.connecting, Status.starting, Status.running],
      isConnected { happyStarting with status := status } = true) ∧
    (splitSpace (chars "PING :PINGMESSAGE")).head? = some (chars "PING") ∧
    jsIndexOfColon (chars "PING :PINGMESSAGE") = ((5 : Nat) : Int) ∧
    '\n' ∉ chars "PING :PINGMESSAGE" ∧
    autoPong { happyStarting with status := Status.running } (chars "PING :PINGMESSAGE") =
      Except.ok { happyStarting with status := Status.running, writes :=
        happyStarting.writes ++
          [chars "PONG :" ++ (chars "PING :PINGMESSAGE").drop 6 ++ chars "\r\n"] } :=
  ⟨by decide, by decide, by decide, by decide,
   c5_autopong_reply { happyStarting with status := Status.running }
     (chars "PING :PINGMESSAGE") 5 (by decide) (by decide) (by decide) (by decide)⟩

/-- C7 (amended): a transport `close` during `Connecting` or `Starting`
with the outcome still pending settles `Fail(Killed)` — as a settlement
of a total handler, never an exception.  However, when a transport
`error` event precedes the `close`, the error handler has already moved
the status to `Closed`, so the `close` handler does not settle the
outcome at all. -/
theorem c7_close_settles_killed :
    (∀ st : St, (st.status = Status.connecting ∨ st.status = Status.starting) →
      st.settled = none →
      (onClose st).settled = some (.fail .killed) ∧ (onClose st).status = .closed) ∧
    (∀ st : St, (onError st).status = Status.closed ∧
      (st.settled = none → (onClose (onError st)).settled = none)) := by
  constructor
  · intro st hs hset
    constructor
    · rw [onClose, if_pos (by rcases hs with h | h <;> simp [h])]
      simp [resolvePromise, hset]
    · rfl
  · intro st
    refine ⟨rfl, fun hset => ?_⟩
    have hno : ¬((onError st).status = Status.starting ∨
        (onError st).status = Status.connecting) := by
      simp [onError]
    rw [onClose, if_neg hno]
    simpa [onError] using hset

/-- Witness for C7 at the starting state of `baseConfig`. -/
theorem c7_witness :
    (happyStarting.status = Status.connecting ∨ happyStarting.status = Status.starting) ∧
    happyStarting.settled = none ∧
    (onClose happyStarting).settled = some (.fail .killed) ∧
    (onClose (onError happyStarting)).settled = none :=
  ⟨Or.inr rfl, rfl,
   (c7_close_settles_killed.1 happyStarting (Or.inr rfl) rfl).1,
   (c7_close_settles_killed.2 happyStarting).2 rfl⟩

/-- C7 counterexample: as stated, the claim requires `Fail(Killed)`
even when a transport error event precedes the close event; but then
the error handler has already set status `Closed` and the close handler
leaves the outcome pending. -/
theorem c7_counterexample :
    happyStarting.status = Status.starting ∧ happyStarting.settled = none ∧
    (onClose (onError happyStarting)).settled ≠
      some (Outcome.fail ConnectFailure.killed) := by
  refine ⟨rfl, rfl, ?_⟩
  decide

/-- C8: the two-phase watchdog.  The timer is idle until
transport-connect; a full silent period in phase one writes exactly one
`PING :ignored` and schedules phase two; any inbound chunk in either
phase cancels the pending phase and restarts phase one; a full silent
period in phase two emits `timeout`, which triggers `end`. -/
theorem c8_watchdog_two_phase :
    (wdInit.phase = WdPhase.idle ∧
      (wdStep wdInit WdEvent.connect).phase = WdPhase.awaitingSilence) ∧
    (∀ s : WdSt, s.phase = WdPhase.awaitingSilence →
      wdStep s WdEvent.fire =
        { s with phase := WdPhase.awaitingPong, pingWrites := s.pingWrites + 1 }) ∧
    (∀ s : WdSt, (wdStep s WdEvent.dataChunk).phase = WdPhase.awaitingSilence ∧
      (wdStep s WdEvent.dataChunk).pingWrites = s.pingWrites ∧
      (wdStep s WdEvent.dataChunk).timeoutEmits = s.timeoutEmits) ∧
    (∀ s : WdSt, s.phase = WdPhase.awaitingPong →
      (wdStep s WdEvent.fire).timeoutEmits = s.timeoutEmits + 1 ∧
      (wdStep s WdEvent.fire).endCalled = true) ∧
    wdRun wdInit [WdEvent.connect, WdEvent.fire, WdEvent.fire] =
      ⟨WdPhase.idle, 1, 1, true⟩ := by
  refine ⟨⟨rfl, rfl⟩, ?_, fun s => ⟨rfl, rfl, rfl⟩, ?_, by decide⟩
  · intro s hs
    simp [wdStep, hs]
  · intro s hs
    simp [wdStep, hs]

/-- Witness for C8 at concrete watchdog states. -/
theorem c8_witness :
    wdStep ⟨WdPhase.awaitingSilence, 0, 0, false⟩ WdEvent.fire =
      { (⟨WdPhase.awaitingSilence, 0, 0, false⟩ : WdSt) with
        phase := WdPhase.awaitingPong, pingWrites := 0 + 1 } ∧
    (wdStep ⟨WdPhase.awaitingPong, 1, 0, false⟩ WdEvent.fire).timeoutEmits = 0 + 1 ∧
    (wdStep ⟨WdPhase.awaitingPong, 1, 0, false⟩ WdEvent.fire).endCalled = true :=
  ⟨c8_watchdog_two_phase.2.1 ⟨WdPhase.awaitingSilence, 0, 0, false⟩ rfl,
   c8_watchdog_two_phase.2.2.2.1 ⟨WdPhase.awaitingPong, 1, 0, false⟩ rfl⟩

/-- C6 (code-bug evidence): a session whose configured `requires` set
is empty still sends `QUIT` and settles
`Fail(MissingRequiredCapabilities)` on numeric 421, because the source
tests `if (this.capabilities.requires)` — the truthiness of the
(always defaulted, possibly empty) array — instead of its emptiness,
so the USER/NICK fall-through branch is unreachable. -/
theorem c6_empty_requires_still_quits :
    capCfg.capabilities =
      some { requires := some [], wants := some [chars "account-notify"] } ∧
    ((connect (mkSt capCfg) >>= onConnect) >>= fun st =>
        processChunk id id st
          (chars ":irc.eu.mibbit.net 421 Havvy2 BLAH :Unknown command\r\n")).map
      (fun st => (st.writes, st.settled)) =
    Except.ok ([chars "CAP LS\r\n", chars "QUIT\r\n"],
      some (Outcome.fail ConnectFailure.missingRequiredCapabilities)) := by
  constructor
  · rfl
  · rfl

/-- C1 (amended): the connect outcome settles at most once — every
session step preserves a settled outcome unchanged — and the startup
handler is detached at the microtask checkpoint closing the data-event
in which settlement occurred, hence before any line of a subsequent
chunk is dispatched; once detached, a line's dispatch is only the
auto-PONG listener.  (Lines later in the settling chunk itself still
reach the attached startup handler; see the counterexample.) -/
theorem c1_settles_once_detached_next_chunk :
    (∀ (st : St) (o : Outcome), st.settled = some o →
      (∀ (norm b64 : List Char → List Char) (chunk : List Char) (st2 : St),
        processChunk norm b64 st chunk = .ok st2 → st2.settled = some o) ∧
      (onClose st).settled = some o ∧ (onError st).settled = some o ∧
      (onEnd st).settled = some o ∧ (endSocket st).settled = some o ∧
      (∀ st2 : St, onConnect st = .ok st2 → st2.settled = some o)) ∧
    (∀ (norm b64 : List Char → List Char) (st st2 : St) (chunk : List Char),
      processChunk norm b64 st chunk = .ok st2 → st2.settled.isSome = true →
      st2.startupAttached = false) ∧
    (∀ (b64 : List Char → List Char) (st : St) (line : List Char),
      st.startupAttached = false → dispatchLine b64 st line = autoPong st line) := by
  refine ⟨?_, ?_, ?_⟩
  · intro st o hset
    refine ⟨fun norm b64 chunk st2 h => (processChunk_pres h).1 o hset, ?_, hset, ?_, ?_,
      fun st2 h => (onConnect_pres h).1 o hset⟩
    · rw [onClose]
      split <;> simp [resolvePromise, hset]
    · rw [onEnd]
      split <;> simp [resolvePromise, hset]
    · rw [endSocket]
      split
      · exact hset
      · split <;> simp [resolvePromise, hset]
  · intro norm b64 st st2 chunk h hsome
    unfold processChunk at h
    obtain ⟨a, ha, h⟩ := exc_bind_ok h
    cases pure_ok_inj h
    by_cases hs : a.settled.isSome = true
    · simp [hs]
    · rw [if_neg (by simpa using hs)] at hsome
      exact absurd hsome hs
  · intro b64 st line hatt
    unfold dispatchLine
    cases hap : autoPong st line with
    | error e => rfl
    | ok a =>
      have hat : a.startupAttached = st.startupAttached := by
        unfold autoPong at hap
        split at hap
        · rcases raw_ok_shape hap with rfl | rfl <;> rfl
        · cases pure_ok_inj hap
          rfl
      show (if a.startupAttached = true then startupHandler b64 a line else pure a) =
        Except.ok a
      rw [hat, hatt]
      rfl

/-- Witness for C1: a chunk arriving at an already-settled state leaves
the settlement unchanged (as do `close`, `error`, `end`), a settling
chunk ends with the handler detached, and a detached dispatch is only
the auto-PONG listener. -/
theorem c1_witness :
    settledStarting.settled = some (Outcome.fail ConnectFailure.socketEnded) ∧
    processChunk id id settledStarting (chars "x y\r\n") =
      Except.ok { settledStarting with startupAttached := false } ∧
    ({ settledStarting with startupAttached := false } : St).settled =
      some (Outcome.fail ConnectFailure.socketEnded) ∧
    (onClose settledStarting).settled = some (Outcome.fail ConnectFailure.socketEnded) ∧
    processChunk id id happyStarting chunk001 = Except.ok happyRunning ∧
    happyRunning.settled.isSome = true ∧ happyRunning.startupAttached = false ∧
    dispatchLine id { happyStarting with startupAttached := false }
        (chars ":irc.test.net 433 * testbot :x") =
      autoPong { happyStarting with startupAttached := false }
        (chars ":irc.test.net 433 * testbot :x") := by
  refine ⟨rfl, rfl, ?_, ?_, rfl, rfl, ?_, ?_⟩
  · exact (c1_settles_once_detached_next_chunk.1 settledStarting
      (Outcome.fail ConnectFailure.socketEnded) rfl).1 id id (chars "x y\r\n")
      { settledStarting with startupAttached := false } rfl
  · exact (c1_settles_once_detached_next_chunk.1 settledStarting
      (Outcome.fail ConnectFailure.socketEnded) rfl).2.1
  · exact c1_settles_once_detached_next_chunk.2.1 id id happyStarting happyRunning
      chunk001 rfl rfl
  · exact c1_settles_once_detached_next_chunk.2.2 id
      { happyStarting with startupAttached := false }
      (chars ":irc.test.net 433 * testbot :x") rfl

/-- C1 counterexample: the claim as stated requires the startup handler
to be detached before further lines of the settling chunk are
dispatched.  But detachment is a `finally` microtask: in a chunk
carrying `001` and then `433`, the still-attached startup handler
processes the `433` after the Ok settlement and emits a spurious
`QUIT`, which the spec-mandated dispatch (`specProcessChunk`) never
writes. -/
theorem c1_counterexample :
    (connect (mkSt happyCfg) >>= onConnect) = Except.ok happyStarting ∧
    (processChunk id id happyStarting settlingChunk).map (fun st => st.writes) =
      Except.ok [chars "USER testuser 8 * :realbot\r\n", chars "NICK testbot\r\n",
        chars "QUIT\r\n"] ∧
    (specProcessChunk id id happyStarting settlingChunk).map (fun st => st.writes) =
      Except.ok [chars "USER testuser 8 * :realbot\r\n", chars "NICK testbot\r\n"] ∧
    (processChunk id id happyStarting settlingChunk).map (fun st => st.writes) ≠
      (specProcessChunk id id happyStarting settlingChunk).map (fun st => st.writes) := by
  refine ⟨rfl, rfl, rfl, ?_⟩
  intro heq
  rw [show (processChunk id id happyStarting settlingChunk).map (fun st => st.writes) =
      Except.ok [chars "USER testuser 8 * :realbot\r\n", chars "NICK testbot\r\n",
        chars "QUIT\r\n"] from rfl,
    show (specProcessChunk id id happyStarting settlingChunk).map (fun st => st.writes) =
      Except.ok [chars "USER testuser 8 * :realbot\r\n", chars "NICK testbot\r\n"]
      from rfl] at heq
  exact absurd (Except.ok.inj heq) (by decide)

theorem isConnected_of_starting {st : St} (h : st.status = Status.starting) :
    isConnected st = true := by
  rw [isConnected, h]
  decide

theorem nick_isPrefixOf (n : List Char) :
    (chars "NICK ").isPrefixOf (chars "NICK " ++ n ++ chars "\r\n") = true := by
  rw [List.isPrefixOf_iff_prefix, List.append_assoc]
  exact List.prefix_append _ _

theorem sendNick_cons {st : St} {n : List Char} {rest : List (List Char)}
    (hs : st.nicknames = n :: rest) (hst : isConnected st = true) (hn : '\n' ∉ n) :
    sendNick st = .ok { st with
      nickname := some n
      nicknames := rest
      writes := st.writes ++ [chars "NICK " ++ n ++ chars "\r\n"] } := by
  unfold sendNick
  split
  · rename_i heq
    rw [hs] at heq
    cases heq
  · rename_i n2 rest2 heq
    rw [hs] at heq
    injection heq with e1 e2
    subst e1
    subst e2
    have hc2 : isConnected { st with nickname := some n, nicknames := rest } = true := hst
    have hmem : '\n' ∉ joinMsg (.arr [chars "NICK", n]) := by
      intro hx
      have he : joinMsg (.arr [chars "NICK", n]) = chars "NICK" ++ ' ' :: n := rfl
      rw [he] at hx
      rcases List.mem_append.mp hx with hx | hx
      · exact absurd hx (by decide)
      · rcases List.mem_cons.mp hx with hx | hx
        · exact absurd hx (by decide)
        · exact hn hx
    rw [raw_connected hc2 hmem]
    rfl

theorem sendNick_nil {st : St} (hs : st.nicknames = []) (hst : isConnected st = true) :
    sendNick st = .ok (resolvePromise
      { st with writes := st.writes ++ [chars "QUIT\r\n"] }
      (.fail .nicknamesUnavailable)) := by
  unfold sendNick
  split
  · rw [raw_connected hst (by decide)]
    rfl
  · rename_i n2 rest2 heq
    rw [hs] at heq
    cases heq

theorem startupHandler_rejection {b64 : List Char → List Char} {st : St}
    {line p0 p1 : List Char} {ps : List (List Char)}
    (hsplit : splitSpace line = p0 :: p1 :: ps)
    (h0 : p0 ≠ chars "ERROR") (h1 : p0 ≠ chars "PING") (h2 : p0 ≠ chars "AUTHENTICATE")
    (hr : p1 ∈ rejectionNumerics) :
    startupHandler b64 st line = sendNick st := by
  have hfacts : p1 ≠ chars "CAP" ∧ p1 ≠ chars "NOTICE" ∧ p1 ≠ chars "903" ∧
      p1 ≠ chars "001" ∧
      includes [some (chars "410"), some (chars "421")] (some p1) = false ∧
      p1 ≠ chars "464" ∧
      includes [some (chars "431"), some (chars "432"), some (chars "433"),
        some (chars "436"), some (chars "437"), some (chars "484")] (some p1) = true := by
    simp only [rejectionNumerics, List.mem_cons, List.not_mem_nil, or_false] at hr
    rcases hr with rfl | rfl | rfl | rfl | rfl | rfl <;> refine ⟨?_, ?_, ?_, ?_, ?_, ?_, ?_⟩ <;>
      decide
  rw [startupHandler]
  simp only [hsplit, List.get?_cons_zero, List.get?_cons_succ]
  rw [if_neg (by simp [h0]), if_neg (by simp [h1]), if_neg (by simp [hfacts.1]),
    if_neg (by simp [hfacts.2.1]), if_neg (by simp [h2]), if_neg (by simp [hfacts.2.2.1]),
    if_neg (by simp [hfacts.2.2.2.1]), if_neg (by simp [hfacts.2.2.2.2.1]),
    if_neg (by simp [hfacts.2.2.2.2.2.1]), if_pos hfacts.2.2.2.2.2.2]

theorem dispatchLine_rejection {b64 : List Char → List Char} {st : St}
    {line p0 p1 : List Char} {ps : List (List Char)}
    (hsplit : splitSpace line = p0 :: p1 :: ps)
    (h0 : p0 ≠ chars "ERROR") (h1 : p0 ≠ chars "PING") (h2 : p0 ≠ chars "AUTHENTICATE")
    (hr : p1 ∈ rejectionNumerics) (hn : '\n' ∉ line)
    (hatt : st.startupAttached = true) :
    ∃ extra, dispatchLine b64 st line =
      sendNick { st with writes := st.writes ++ extra } ∧
      ∀ w ∈ extra, (chars "NICK ").isPrefixOf w = false := by
  obtain ⟨extra, hap, hex⟩ := @autoPong_total_shape st line hn
  refine ⟨extra, ?_, hex⟩
  unfold dispatchLine
  rw [hap]
  show (if ({ st with writes := st.writes ++ extra } : St).startupAttached = true then
    startupHandler b64 { st with writes := st.writes ++ extra } line
    else pure { st with writes := st.writes ++ extra }) = _
  rw [if_pos hatt]
  exact startupHandler_rejection hsplit h0 h1 h2 hr

theorem autoPong_skip {st : St} {line : List Char}
    (h : jsTake line 4 ≠ chars "PING") : autoPong st line = .ok st := by
  unfold autoPong
  rw [if_neg h]
  rfl

theorem nickWrites_single_nick (n : List Char) :
    nickWrites [chars "NICK " ++ n ++ chars "\r\n"] = [chars "NICK " ++ n ++ chars "\r\n"] := by
  simp [nickWrites, nick_isPrefixOf n]

theorem nickWrites_single_nick2 (n : List Char) :
    nickWrites [chars "NICK " ++ (n ++ chars "\r\n")] = [chars "NICK " ++ (n ++ chars "\r\n")] := by
  rw [← List.append_assoc]
  exact nickWrites_single_nick n

theorem nickWrites_of_no_nick {extra : List (List Char)}
    (hex : ∀ w ∈ extra, (chars "NICK ").isPrefixOf w = false) : nickWrites extra = [] := by
  simp only [nickWrites, List.filter_eq_nil_iff]
  intro w hw
  simp [hex w hw]

theorem rejRun (b64 : List Char → List Char) :
    ∀ (lines : List (List Char)) (st : St),
    (∀ l ∈ lines, RejLine l) → st.status = Status.starting →
    st.startupAttached = true → st.settled = none →
    lines.length ≤ st.nicknames.length → (∀ n ∈ st.nicknames, '\n' ∉ n) →
    ∃ st2, lines.foldlM (dispatchLine b64) st = .ok st2 ∧
      st2.nicknames = st.nicknames.drop lines.length ∧
      nickWrites st2.writes = nickWrites st.writes ++
        (st.nicknames.take lines.length).map
          (fun n => chars "NICK " ++ n ++ chars "\r\n") ∧
      st2.status = Status.starting ∧ st2.startupAttached = true ∧ st2.settled = none := by
  intro lines
  induction lines with
  | nil =>
    intro st _ hstat hatt hset _ _
    exact ⟨st, by rw [List.foldlM_nil]; rfl, by simp, by simp, hstat, hatt, hset⟩
  | cons l ls ih =>
    intro st hrej hstat hatt hset hlen hnick
    obtain ⟨hln, p0, p1, ps, hsplit, h0, h1, h2, hr⟩ := hrej l (List.mem_cons_self l ls)
    obtain ⟨n, ns, hns⟩ : ∃ n ns, st.nicknames = n :: ns := by
      cases hnn : st.nicknames with
      | nil =>
        rw [hnn] at hlen
        simp at hlen
      | cons a t => exact ⟨a, t, rfl⟩
    obtain ⟨extra, hd, hex⟩ := dispatchLine_rejection hsplit h0 h1 h2 hr hln hatt
    have hsE : ({ st with writes := st.writes ++ extra } : St).nicknames = n :: ns := hns
    have hcE : isConnected ({ st with writes := st.writes ++ extra } : St) = true :=
      isConnected_of_starting hstat
    have hnmem : '\n' ∉ n := hnick n (by rw [hns]; exact List.mem_cons_self n ns)
    have hsn := sendNick_cons hsE hcE hnmem
    obtain ⟨st2, hrun, hnick2, hw2, hstat2, hatt2, hset2⟩ :=
      ih { st with
            nickname := some n
            nicknames := ns
            writes := (st.writes ++ extra) ++ [chars "NICK " ++ n ++ chars "\r\n"] }
        (fun x hx => hrej x (List.mem_cons_of_mem l hx)) hstat hatt hset
        (by
          simp only [List.length_cons] at hlen
          rw [hns] at hlen
          simpa using hlen)
        (fun m hm => hnick m (by rw [hns]; exact List.mem_cons_of_mem n hm))
    refine ⟨st2, ?_, ?_, ?_, hstat2, hatt2, hset2⟩
    · rw [List.foldlM_cons, hd, hsn]
      exact hrun
    · rw [hnick2, hns]
      simp [List.drop_succ_cons]
    · rw [hw2, hns]
      simp only [List.length_cons, List.take_succ_cons, List.map_cons,
        nickWrites_append, nickWrites_of_no_nick hex, nickWrites_single_nick,
        List.append_nil, List.append_assoc, List.singleton_append,
        nickWrites_single_nick2, List.nil_append]

theorem ok_bind {α β : Type} (a : α) (f : α → Except String β) :
    (Except.ok a >>= f : Except String β) = f a := rfl

theorem foldlM_append_exc {α β : Type} (f : β → α → Except String β) (l1 l2 : List α) :
    ∀ b, (l1 ++ l2).foldlM f b = l1.foldlM f b >>= fun x => l2.foldlM f x := by
  induction l1 with
  | nil =>
    intro b
    rfl
  | cons a t ih =>
    intro b
    show (f b a >>= fun x => (t ++ l2).foldlM f x) =
      (f b a >>= fun x => t.foldlM f x) >>= fun y => l2.foldlM f y
    cases hfa : f b a with
    | error e => rfl
    | ok x => exact ih x

theorem connect_ok (st : St) (h : st.status = Status.initialized) :
    connect st = .ok { st with status := Status.connecting } := by
  rw [connect, if_neg (show ¬ isStarted st = true by simp [isStarted, h])]
  rfl

/-- The transport-connect handler on a minimal config (no capabilities,
no proxy, no password): `USER` then the first `NICK`. -/
theorem onConnect_minimal (st : St) (hp : st.pending = true) (hc : st.capabilities = none)
    (hx : st.proxy = none) (hw : st.password = none)
    (hu : '\n' ∉ st.username) (hr : '\n' ∉ st.realname)
    (n0 : List Char) (rest : List (List Char)) (hnn : st.nicknames = n0 :: rest)
    (hn0 : '\n' ∉ n0) :
    onConnect st = .ok { st with
      status := Status.starting
      startupAttached := true
      nickname := some n0
      nicknames := rest
      writes := st.writes ++
        [chars "USER " ++ st.username ++ chars " 8 * :" ++ st.realname ++ chars "\r\n"] ++
        [chars "NICK " ++ n0 ++ chars "\r\n"] } := by
  have hmem : '\n' ∉ chars "USER " ++ st.username ++ chars " 8 * :" ++ st.realname := by
    intro hxx
    rcases List.mem_append.mp hxx with hxx | hxx
    · rcases List.mem_append.mp hxx with hxx | hxx
      · rcases List.mem_append.mp hxx with hxx | hxx
        · exact absurd hxx (by decide)
        · exact hu hxx
      · exact absurd hxx (by decide)
    · exact hr hxx
  have hci : connectInit st = { st with status := Status.starting, startupAttached := true } := by
    simp [connectInit, hc]
  have hpx : proxyStep { st with status := Status.starting, startupAttached := true } =
      .ok { st with status := Status.starting, startupAttached := true } := by
    rw [proxyStep, show ({ st with status := Status.starting, startupAttached := true } : St).proxy = none from hx]
    rfl
  have hpw2 : passwordStep { st with status := Status.starting, startupAttached := true } =
      .ok { st with status := Status.starting, startupAttached := true } := by
    rw [passwordStep, show ({ st with status := Status.starting, startupAttached := true } : St).password = none from hw]
    rfl
  have hct : capsTailStep { st with status := Status.starting, startupAttached := true } =
      sendUser { st with status := Status.starting, startupAttached := true } >>= sendNick := by
    rw [capsTailStep, show ({ st with status := Status.starting, startupAttached := true } : St).capabilities = none from hc]
  have hsu : sendUser { st with status := Status.starting, startupAttached := true } =
      .ok { st with
        status := Status.starting
        startupAttached := true
        writes := st.writes ++
          [chars "USER " ++ st.username ++ chars " 8 * :" ++ st.realname ++ chars "\r\n"] } := by
    rw [sendUser, raw_connected
      (show isConnected ({ st with status := Status.starting, startupAttached := true } : St) =
        true from isConnected_of_starting rfl)
      (show '\n' ∉ joinMsg (Msg.str (chars "USER " ++ st.username ++ chars " 8 * :" ++
        st.realname)) from hmem)]
    rfl
  rw [onConnect, if_neg (show ¬ (¬ st.pending = true) by simp [hp])]
  rw [hci]
  simp only []
  rw [hpx]
  simp only [ok_bind]
  rw [hpw2]
  simp only [ok_bind]
  rw [hct, hsu]
  simp only [ok_bind]
  exact sendNick_cons hnn (isConnected_of_starting rfl) hn0

theorem connect_onConnect_minimal (cfg : Config) (n0 : List Char) (rest : List (List Char))
    (hnn : cfg.nicknames = n0 :: rest) (hcaps : cfg.capabilities = none)
    (hproxy : cfg.proxy = none) (hpw : cfg.password = none)
    (huser : '\n' ∉ cfg.username) (hreal : '\n' ∉ cfg.realname) (hn0 : '\n' ∉ n0) :
    connect (mkSt cfg) >>= onConnect = .ok { mkSt cfg with
      status := Status.starting
      startupAttached := true
      nickname := some n0
      nicknames := rest
      writes := [chars "USER " ++ cfg.username ++ chars " 8 * :" ++ cfg.realname ++ chars "\r\n",
        chars "NICK " ++ n0 ++ chars "\r\n"] } := by
  rw [connect_ok (mkSt cfg) rfl, ok_bind]
  exact onConnect_minimal _ rfl hcaps hproxy hpw huser hreal n0 rest hnn hn0

theorem nickWrites_stA (u r n0 : List Char) :
    nickWrites [chars "USER " ++ u ++ chars " 8 * :" ++ r ++ chars "\r\n",
      chars "NICK " ++ n0 ++ chars "\r\n"] = [chars "NICK " ++ n0 ++ chars "\r\n"] := by
  have h1 : (chars "NICK ").isPrefixOf
      (chars "USER " ++ u ++ chars " 8 * :" ++ r ++ chars "\r\n") = false := by
    rw [show chars "USER " = 'U' :: chars "SER " from rfl]
    simp only [List.cons_append]
    exact not_nick_of_head (by decide)
  have h2 : nickWrites [chars "USER " ++ u ++ chars " 8 * :" ++ r ++ chars "\r\n"] = [] := by
    refine nickWrites_of_no_nick ?_
    intro w hw
    rw [List.mem_singleton] at hw
    subst hw
    exact h1
  rw [show ([chars "USER " ++ u ++ chars " 8 * :" ++ r ++ chars "\r\n",
        chars "NICK " ++ n0 ++ chars "\r\n"] : List (List Char)) =
      [chars "USER " ++ u ++ chars " 8 * :" ++ r ++ chars "\r\n"] ++
        [chars "NICK " ++ n0 ++ chars "\r\n"] from rfl,
    nickWrites_append, h2, nickWrites_single_nick, List.nil_append]


theorem startupHandler_001 {b64 : List Char → List Char} {st : St}
    {line p0 : List Char} {ps : List (List Char)}
    (hsplit : splitSpace line = p0 :: chars "001" :: ps)
    (h0 : p0 ≠ chars "ERROR") (h1 : p0 ≠ chars "PING") (h2 : p0 ≠ chars "AUTHENTICATE") :
    startupHandler b64 st line = welcomeBranch st := by
  rw [startupHandler]
  simp only [hsplit, List.get?_cons_zero, List.get?_cons_succ]
  rw [if_neg (by simp [h0]), if_neg (by simp [h1]), if_neg (by decide),
    if_neg (by decide), if_neg (by simp [h2]), if_neg (by decide)]
  exact if_pos trivial

theorem welcomeBranch_ok (st : St) :
    welcomeBranch st = .ok (resolvePromise
      { st with
        status := Status.running
        readyEvents := st.readyEvents ++ [⟨st.acknowledgedCapabilities, st.nickname⟩] }
      (Outcome.ok ⟨st.acknowledgedCapabilities, st.nickname⟩)) := rfl

theorem dispatchLine_001 {b64 : List Char → List Char} {st : St}
    {line p0 : List Char} {ps : List (List Char)}
    (hsplit : splitSpace line = p0 :: chars "001" :: ps)
    (h0 : p0 ≠ chars "ERROR") (h1 : p0 ≠ chars "PING") (h2 : p0 ≠ chars "AUTHENTICATE")
    (hn : '\n' ∉ line) (hatt : st.startupAttached = true) :
    ∃ extra, dispatchLine b64 st line =
      .ok (resolvePromise
        { st with
          status := Status.running
          writes := st.writes ++ extra
          readyEvents := st.readyEvents ++ [⟨st.acknowledgedCapabilities, st.nickname⟩] }
        (Outcome.ok ⟨st.acknowledgedCapabilities, st.nickname⟩)) ∧
      (∀ w ∈ extra, (chars "NICK ").isPrefixOf w = false) := by
  obtain ⟨extra, hap, hex⟩ := @autoPong_total_shape st line hn
  refine ⟨extra, ?_, hex⟩
  unfold dispatchLine
  rw [hap]
  show (if ({ st with writes := st.writes ++ extra } : St).startupAttached = true then
    startupHandler b64 { st with writes := st.writes ++ extra } line
    else pure { st with writes := st.writes ++ extra }) = _
  rw [if_pos hatt, startupHandler_001 hsplit h0 h1 h2, welcomeBranch_ok]

/-- C4 (amended): while starting with the startup handler attached and
the outcome unsettled, a line whose numeric is `001` transitions the
status to `running` and settles
`Ok{capabilities: acknowledgedCapabilities, nickname}`; when the
`nickname` local names the last `NICK` written, the settled nickname is
the last `NICK` sent.  The settled `capabilities` field is the
acknowledged-capabilities value, which for a config with no
`capabilities` configured is the JS value `undefined` (`none`) — not
the empty sequence. -/
theorem c4_welcome_outcome (b64 : List Char → List Char) :
    (∀ (st : St) (line p0 : List Char) (ps : List (List Char)),
      splitSpace line = p0 :: chars "001" :: ps →
      p0 ≠ chars "ERROR" → p0 ≠ chars "PING" → p0 ≠ chars "AUTHENTICATE" →
      '\n' ∉ line → st.status = Status.starting → st.startupAttached = true →
      st.settled = none →
      ∃ st2, dispatchLine b64 st line = .ok st2 ∧
        st2.status = Status.running ∧
        st2.settled = some (Outcome.ok ⟨st.acknowledgedCapabilities, st.nickname⟩) ∧
        (st.nickname = lastNickSent st.writes →
          st2.settled = some (Outcome.ok ⟨st.acknowledgedCapabilities,
            lastNickSent st2.writes⟩))) ∧
    (∀ (cfg : Config) (n0 : List Char) (rest : List (List Char))
        (line p0 : List Char) (ps : List (List Char)),
      cfg.nicknames = n0 :: rest → cfg.capabilities = none → cfg.proxy = none →
      cfg.password = none → '\n' ∉ cfg.username → '\n' ∉ cfg.realname → '\n' ∉ n0 →
      splitSpace line = p0 :: chars "001" :: ps →
      p0 ≠ chars "ERROR" → p0 ≠ chars "PING" → p0 ≠ chars "AUTHENTICATE" → '\n' ∉ line →
      ∃ st2, (connect (mkSt cfg) >>= onConnect >>= fun s =>
          dispatchLine b64 s line) = .ok st2 ∧
        st2.status = Status.running ∧
        st2.settled = some (Outcome.ok ⟨none, some n0⟩)) := by
  constructor
  · intro st line p0 ps hsplit h0 h1 h2 hn hstat hatt hset
    obtain ⟨extra, hd, hex⟩ := dispatchLine_001 hsplit h0 h1 h2 hn hatt
    have hlast : lastNickSent (st.writes ++ extra) = lastNickSent st.writes := by
      rw [lastNickSent, lastNickSent, nickWrites_append, nickWrites_of_no_nick hex,
        List.append_nil]
    refine ⟨_, hd, rfl, ?_, ?_⟩
    · simp [resolvePromise, hset]
    · intro hnick
      show (resolvePromise _ _).settled = _
      simp only [resolvePromise]
      rw [show ({ st with
          status := Status.running
          writes := st.writes ++ extra
          readyEvents := st.readyEvents ++
            [⟨st.acknowledgedCapabilities, st.nickname⟩] } : St).settled = none from hset]
      rw [hlast, hnick]
  · intro cfg n0 rest line p0 ps hnn hcaps hproxy hpw hu hr hn0 hsplit h0 h1 h2 hn
    obtain ⟨stA, hco, hackA, hnickA, hseA, hatA⟩ : ∃ stA,
        connect (mkSt cfg) >>= onConnect = .ok stA ∧
        stA.acknowledgedCapabilities = none ∧ stA.nickname = some n0 ∧
        stA.settled = none ∧ stA.startupAttached = true :=
      ⟨_, connect_onConnect_minimal cfg n0 rest hnn hcaps hproxy hpw hu hr hn0,
        rfl, rfl, rfl, rfl⟩
    obtain ⟨extra, hd, hex⟩ := dispatchLine_001 hsplit h0 h1 h2 hn hatA
    refine ⟨resolvePromise { stA with
        status := Status.running
        writes := stA.writes ++ extra
        readyEvents := stA.readyEvents ++ [⟨stA.acknowledgedCapabilities, stA.nickname⟩] }
      (Outcome.ok ⟨stA.acknowledgedCapabilities, stA.nickname⟩), ?_, rfl, ?_⟩
    · rw [hco]
      exact hd
    · simp only [resolvePromise]
      rw [show ({ stA with
          status := Status.running
          writes := stA.writes ++ extra
          readyEvents := stA.readyEvents ++
            [⟨stA.acknowledgedCapabilities, stA.nickname⟩] } : St).settled = none from hseA]
      rw [hackA, hnickA]

/-- The code's outcome for the no-capabilities happy path: the
`capabilities` field of the settled `Ok` is `undefined` (`none`), not
the empty sequence claimed by the spec. -/
theorem c4_counterexample :
    processChunk id id happyStarting chunk001 = .ok happyRunning ∧
    happyRunning.settled = some (Outcome.ok ⟨none, some (chars "testbot")⟩) ∧
    (⟨none, some (chars "testbot")⟩ : OkData).capabilities ≠ some [] :=
  ⟨rfl, rfl, by decide⟩

theorem c4_witness :
    (∃ st2, dispatchLine id happyStarting (chars ":s 001 tb :hi") = .ok st2 ∧
      st2.status = Status.running ∧
      st2.settled = some (Outcome.ok ⟨none, some (chars "testbot")⟩) ∧
      (happyStarting.nickname = lastNickSent happyStarting.writes →
        st2.settled = some (Outcome.ok ⟨none, lastNickSent st2.writes⟩))) ∧
    (∃ st2, (connect (mkSt ⟨chars "u", chars "r", [chars "a"],
          none, none, none, none, none⟩) >>= onConnect >>= fun s =>
        dispatchLine id s (chars ":s 001 a :hi")) = .ok st2 ∧
      st2.status = Status.running ∧
      st2.settled = some (Outcome.ok ⟨none, some (chars "a")⟩)) :=
  ⟨(c4_welcome_outcome id).1 happyStarting (chars ":s 001 tb :hi") (chars ":s")
      [chars "tb", chars ":hi"] (by decide) (by decide) (by decide) (by decide)
      (by decide) rfl rfl rfl,
    (c4_welcome_outcome id).2 ⟨chars "u", chars "r", [chars "a"],
        none, none, none, none, none⟩ (chars "a") [] (chars ":s 001 a :hi") (chars ":s")
      [chars "a", chars ":hi"] rfl rfl rfl rfl (by decide) (by decide) (by decide)
      (by decide) (by decide) (by decide) (by decide) (by decide)⟩

theorem consHead_ne_nil (c : Char) (xs : List (List Char)) : consHead c xs ≠ [] := by
  cases xs <;> simp [consHead]

theorem splitCRLF_ne_nil : ∀ s, splitCRLF s ≠ [] := by
  intro s
  induction s using splitCRLF.induct with
  | case1 => simp [splitCRLF]
  | case2 c => simp [splitCRLF]
  | case3 c d rest h ih =>
    rw [splitCRLF, if_pos h]
    simp
  | case4 c d rest h ih =>
    rw [splitCRLF, if_neg h]
    exact consHead_ne_nil c _

theorem hasCRLF_cons_cons (c d : Char) (rest : List Char) :
    hasCRLF (c :: d :: rest) = if c = '\r' ∧ d = '\n' then true else hasCRLF (d :: rest) := rfl

theorem splitCRLF_of_no_crlf : ∀ s, hasCRLF s = false → splitCRLF s = [s] := by
  intro s
  induction s using splitCRLF.induct with
  | case1 => intro _; rfl
  | case2 c => intro _; rfl
  | case3 c d rest h ih =>
    intro hc
    rw [hasCRLF_cons_cons, if_pos h] at hc
    cases hc
  | case4 c d rest h ih =>
    intro hc
    rw [hasCRLF_cons_cons, if_neg h] at hc
    rw [splitCRLF, if_neg h, ih hc]
    rfl

theorem splitCRLF_head_start (d : Char) (rest : List Char) :
    ∀ h t, splitCRLF (d :: rest) = h :: t → h = [] ∨ ∃ h2, h = d :: h2 := by
  cases rest with
  | nil =>
    intro h t he
    rw [show splitCRLF [d] = [[d]] from rfl] at he
    injection he with e1 e2
    exact Or.inr ⟨[], e1.symm⟩
  | cons e rest2 =>
    intro h t he
    by_cases hde : d = '\r' ∧ e = '\n'
    · rw [splitCRLF, if_pos hde] at he
      injection he with e1 e2
      exact Or.inl e1.symm
    · rw [splitCRLF, if_neg hde] at he
      rcases hsp : splitCRLF (e :: rest2) with _ | ⟨h2, t2⟩
      · exact absurd hsp (splitCRLF_ne_nil _)
      · rw [hsp] at he
        simp only [consHead] at he
        injection he with e1 e2
        exact Or.inr ⟨h2, e1.symm⟩

theorem splitCRLF_singleton (d : Char) (rest : List Char) :
    ∀ h, splitCRLF (d :: rest) = [h] → ∃ h2, h = d :: h2 := by
  cases rest with
  | nil =>
    intro h he
    rw [show splitCRLF [d] = [[d]] from rfl] at he
    injection he with e1 e2
    exact ⟨[], e1.symm⟩
  | cons e rest2 =>
    intro h he
    by_cases hde : d = '\r' ∧ e = '\n'
    · rw [splitCRLF, if_pos hde] at he
      injection he with e1 e2
      exact absurd e2 (splitCRLF_ne_nil rest2)
    · rw [splitCRLF, if_neg hde] at he
      rcases hsp : splitCRLF (e :: rest2) with _ | ⟨h2, t2⟩
      · exact absurd hsp (splitCRLF_ne_nil _)
      · rw [hsp] at he
        simp only [consHead] at he
        injection he with e1 e2
        exact ⟨h2, e1.symm⟩

theorem mem_splitCRLF_no_crlf : ∀ s, ∀ seg ∈ splitCRLF s, hasCRLF seg = false := by
  intro s
  induction s using splitCRLF.induct with
  | case1 =>
    intro seg hseg
    rw [show splitCRLF [] = [[]] from rfl, List.mem_singleton] at hseg
    subst hseg
    rfl
  | case2 c =>
    intro seg hseg
    rw [show splitCRLF [c] = [[c]] from rfl, List.mem_singleton] at hseg
    subst hseg
    rfl
  | case3 c d rest h ih =>
    intro seg hseg
    rw [splitCRLF, if_pos h] at hseg
    rcases List.mem_cons.mp hseg with rfl | hseg
    · rfl
    · exact ih seg hseg
  | case4 c d rest h ih =>
    intro seg hseg
    rw [splitCRLF, if_neg h] at hseg
    rcases hsp : splitCRLF (d :: rest) with _ | ⟨h2, t2⟩
    · exact absurd hsp (splitCRLF_ne_nil _)
    · rw [hsp] at hseg
      simp only [consHead] at hseg
      rcases List.mem_cons.mp hseg with rfl | hseg
      · have hh2 : hasCRLF h2 = false := ih h2 (by rw [hsp]; exact List.mem_cons_self _ _)
        rcases splitCRLF_head_start d rest h2 t2 hsp with rfl | ⟨h3, rfl⟩
        · rfl
        · rw [hasCRLF_cons_cons, if_neg h]
          exact hh2
      · exact ih seg (by rw [hsp]; exact List.mem_cons_of_mem _ hseg)

theorem splitCRLF_cons (x : Char) (u : List Char)
    (hx : ¬(x = '\r' ∧ u.head? = some '\n')) :
    splitCRLF (x :: u) = consHead x (splitCRLF u) := by
  cases u with
  | nil => rfl
  | cons y u2 =>
    rw [splitCRLF, if_neg (fun hc => hx ⟨hc.1, by rw [List.head?_cons, hc.2]⟩)]

theorem lastSeg_mem {xs : List (List Char)} (h : xs ≠ []) : lastSeg xs ∈ xs := by
  rw [lastSeg, List.getLast?_eq_getLast xs h]
  exact List.getLast_mem h

theorem hasCRLF_tail {x : Char} {b : List Char} (h : hasCRLF (x :: b) = false) :
    hasCRLF b = false := by
  cases b with
  | nil => rfl
  | cons y b2 =>
    rw [hasCRLF_cons_cons] at h
    by_cases hxy : x = '\r' ∧ y = '\n'
    · rw [if_pos hxy] at h
      cases h
    · rw [if_neg hxy] at h
      exact h

theorem splitCRLF_buffer_prepend : ∀ (b u : List Char), hasCRLF b = false →
    ¬(b.getLast? = some '\r' ∧ u.head? = some '\n') →
    ∀ h t, splitCRLF u = h :: t → splitCRLF (b ++ u) = (b ++ h) :: t := by
  intro b
  induction b with
  | nil =>
    intro u _ _ h t hu
    rw [List.nil_append, hu, List.nil_append]
  | cons x b2 ih =>
    intro u hb hj h t hu
    have hcx : ¬(x = '\r' ∧ (b2 ++ u).head? = some '\n') := by
      intro hc
      cases b2 with
      | nil =>
        exact hj ⟨by rw [hc.1]; rfl, hc.2⟩
      | cons y b3 =>
        rw [List.cons_append, List.head?_cons] at hc
        rw [hasCRLF_cons_cons, if_pos ⟨hc.1, Option.some.inj hc.2⟩] at hb
        cases hb
    have hj2 : ¬(b2.getLast? = some '\r' ∧ u.head? = some '\n') := by
      intro hc
      cases b2 with
      | nil => cases hc.1
      | cons y b3 =>
        exact hj ⟨by rw [List.getLast?_cons_cons]; exact hc.1, hc.2⟩
    rw [List.cons_append, splitCRLF_cons x (b2 ++ u) hcx,
      ih u (hasCRLF_tail hb) hj2 h t hu]
    rfl

theorem lastSeg_ends_cr : ∀ s : List Char, s.getLast? = some '\r' →
    (lastSeg (splitCRLF s)).getLast? = some '\r' := by
  intro s
  induction s using splitCRLF.induct with
  | case1 =>
    intro h
    cases h
  | case2 c =>
    intro h
    simpa [splitCRLF, lastSeg] using h
  | case3 c d rest h ih =>
    intro hl
    obtain ⟨rfl, rfl⟩ := h
    cases rest with
    | nil =>
      rw [show (['\r', '\n'] : List Char).getLast? = some '\n' from rfl] at hl
      exact absurd (Option.some.inj hl) (by decide)
    | cons r0 rest1 =>
      rw [List.getLast?_cons_cons, List.getLast?_cons_cons] at hl
      have := ih hl
      rw [splitCRLF, if_pos ⟨rfl, rfl⟩]
      rcases hsp : splitCRLF (r0 :: rest1) with _ | ⟨x0, xs⟩
      · exact absurd hsp (splitCRLF_ne_nil _)
      · rw [hsp] at this
        rw [show lastSeg ([] :: x0 :: xs) = lastSeg (x0 :: xs) from by
          rw [lastSeg, lastSeg, List.getLast?_cons_cons]]
        exact this
  | case4 c d rest h ih =>
    intro hl
    rw [List.getLast?_cons_cons] at hl
    have hih := ih hl
    rw [splitCRLF, if_neg h]
    rcases hsp : splitCRLF (d :: rest) with _ | ⟨h2, t2⟩
    · exact absurd hsp (splitCRLF_ne_nil _)
    · rw [hsp] at hih
      rcases t2 with _ | ⟨t0, ts⟩
      · rw [show lastSeg [h2] = h2 from rfl] at hih
        rw [show consHead c [h2] = [c :: h2] from rfl,
          show lastSeg [c :: h2] = c :: h2 from rfl]
        cases h2 with
        | nil => cases hih
        | cons z h3 =>
          rw [List.getLast?_cons_cons]
          exact hih
      · rw [show lastSeg (h2 :: t0 :: ts) = lastSeg (t0 :: ts) from by
          rw [lastSeg, lastSeg, List.getLast?_cons_cons]] at hih
        rw [show consHead c (h2 :: t0 :: ts) = (c :: h2) :: t0 :: ts from rfl,
          show lastSeg ((c :: h2) :: t0 :: ts) = lastSeg (t0 :: ts) from by
            rw [lastSeg, lastSeg, List.getLast?_cons_cons]]
        exact hih

theorem splitCRLF_append : ∀ s t : List Char,
    ¬(s.getLast? = some '\r' ∧ t.head? = some '\n') →
    splitCRLF (s ++ t) =
      (splitCRLF s).dropLast ++ splitCRLF (lastSeg (splitCRLF s) ++ t) := by
  intro s
  induction s using splitCRLF.induct with
  | case1 =>
    intro t hj
    rw [List.nil_append, show splitCRLF [] = [[]] from rfl]
    rfl
  | case2 c =>
    intro t hj
    rw [show splitCRLF [c] = [[c]] from rfl]
    rfl
  | case3 c d rest h ih =>
    intro t hj
    obtain ⟨rfl, rfl⟩ := h
    have hj2 : ¬(rest.getLast? = some '\r' ∧ t.head? = some '\n') := by
      intro hx
      refine hj ⟨?_, hx.2⟩
      rcases rest with _ | ⟨r0, rest1⟩
      · cases hx.1
      · rw [List.getLast?_cons_cons, List.getLast?_cons_cons]
        exact hx.1
    have e1 : splitCRLF ('\r' :: '\n' :: rest) = [] :: splitCRLF rest := by
      rw [splitCRLF, if_pos ⟨rfl, rfl⟩]
    rw [show ('\r' :: '\n' :: rest) ++ t = '\r' :: '\n' :: (rest ++ t) from rfl,
      show splitCRLF ('\r' :: '\n' :: (rest ++ t)) = [] :: splitCRLF (rest ++ t) from by
        rw [splitCRLF, if_pos ⟨rfl, rfl⟩],
      e1, ih t hj2]
    rcases hsp : splitCRLF rest with _ | ⟨x0, xs⟩
    · exact absurd hsp (splitCRLF_ne_nil _)
    · rw [show ([] :: x0 :: xs).dropLast = [] :: (x0 :: xs).dropLast from rfl,
        show lastSeg ([] :: x0 :: xs) = lastSeg (x0 :: xs) from by
          rw [lastSeg, lastSeg, List.getLast?_cons_cons]]
      rfl
  | case4 c d rest h ih =>
    intro t hj
    have hj2 : ¬((d :: rest).getLast? = some '\r' ∧ t.head? = some '\n') := by
      intro hx
      exact hj ⟨by rw [List.getLast?_cons_cons]; exact hx.1, hx.2⟩
    have e1 : splitCRLF (c :: d :: rest) = consHead c (splitCRLF (d :: rest)) := by
      rw [splitCRLF, if_neg h]
    have e2 : splitCRLF ((c :: d :: rest) ++ t) =
        consHead c (splitCRLF ((d :: rest) ++ t)) := by
      show splitCRLF (c :: d :: (rest ++ t)) = _
      rw [splitCRLF, if_neg h]
      rfl
    rw [e2, ih t hj2, e1]
    rcases hsp : splitCRLF (d :: rest) with _ | ⟨h2, t2⟩
    · exact absurd hsp (splitCRLF_ne_nil _)
    · rcases t2 with _ | ⟨t0, ts⟩
      · obtain ⟨h3, rfl⟩ := splitCRLF_singleton d rest h2 hsp
        rw [show lastSeg [d :: h3] = d :: h3 from rfl,
          show consHead c [d :: h3] = [c :: d :: h3] from rfl,
          show lastSeg [c :: d :: h3] = c :: d :: h3 from rfl]
        rw [show ([d :: h3] : List (List Char)).dropLast = [] from rfl,
          show ([c :: d :: h3] : List (List Char)).dropLast = [] from rfl,
          List.nil_append, List.nil_append]
        rw [show (c :: d :: h3) ++ t = c :: ((d :: h3) ++ t) from rfl,
          splitCRLF_cons c ((d :: h3) ++ t)
            (fun hc => h ⟨hc.1, by
              rw [List.cons_append, List.head?_cons] at hc
              exact Option.some.inj hc.2⟩)]
      · rw [show lastSeg (h2 :: t0 :: ts) = lastSeg (t0 :: ts) from by
          rw [lastSeg, lastSeg, List.getLast?_cons_cons]]
        rw [show consHead c (h2 :: t0 :: ts) = (c :: h2) :: t0 :: ts from rfl]
        rw [show lastSeg ((c :: h2) :: t0 :: ts) = lastSeg (t0 :: ts) from by
          rw [lastSeg, lastSeg, List.getLast?_cons_cons]]
        rw [show ((c :: h2) :: t0 :: ts).dropLast = (c :: h2) :: (t0 :: ts).dropLast from rfl,
          show (h2 :: t0 :: ts).dropLast = h2 :: (t0 :: ts).dropLast from rfl]
        rfl

theorem splitCRLF_append_crlf : ∀ w : List Char, hasCRLF w = false →
    splitCRLF (w ++ chars "\r\n") = [w, []] := by
  intro w
  induction w with
  | nil => intro _; rfl
  | cons x w2 ih =>
    intro h
    cases w2 with
    | nil =>
      rw [show [x] ++ chars "\r\n" = x :: '\r' :: ['\n'] from rfl, splitCRLF,
        if_neg (fun hc => absurd hc.2 (by decide))]
      rfl
    | cons y w3 =>
      have hxy : ¬(x = '\r' ∧ y = '\n') := by
        intro hc
        rw [hasCRLF_cons_cons, if_pos hc] at h
        cases h
      have h2 : hasCRLF (y :: w3) = false := by
        rw [hasCRLF_cons_cons, if_neg hxy] at h
        exact h
      rw [show (x :: y :: w3) ++ chars "\r\n" = x :: ((y :: w3) ++ chars "\r\n") from rfl,
        splitCRLF_cons x ((y :: w3) ++ chars "\r\n")
          (fun hc => hxy ⟨hc.1, by
            have hc2 := hc.2
            rw [List.cons_append, List.head?_cons] at hc2
            exact Option.some.inj hc2⟩),
        ih h2]
      rfl

theorem chunksOk_flatten_head : ∀ (cs : List (List Char)) (buf : List Char),
    hasCRLF buf = false → chunksOk buf cs →
    ¬(buf.getLast? = some '\r' ∧ cs.join.head? = some '\n') := by
  intro cs
  induction cs with
  | nil =>
    intro buf _ _ hx
    rw [show (List.join ([] : List (List Char))) = [] from rfl] at hx
    cases hx.2
  | cons c cs2 ih =>
    intro buf hb hok hx
    rcases hok with ⟨hj1, hok2⟩
    cases c with
    | nil =>
      rw [List.append_nil, splitCRLF_of_no_crlf buf hb,
        show lastSeg [buf] = buf from rfl] at hok2
      exact ih buf hb hok2 ⟨hx.1, hx.2⟩
    | cons c0 crest =>
      exact hj1 ⟨hx.1, hx.2⟩

theorem dropLast_append_ne {α : Type} : ∀ (l1 l2 : List α), l2 ≠ [] →
    (l1 ++ l2).dropLast = l1 ++ l2.dropLast := by
  intro l1 l2 h2
  induction l1 with
  | nil => rfl
  | cons a l1' ih =>
    rw [List.cons_append, List.dropLast_cons_of_ne_nil (by
      intro hx
      exact h2 (List.append_eq_nil.mp hx).2), ih]
    rfl

theorem framerRun_split : ∀ (chunks : List (List Char)) (norm : List Char → List Char)
    (buf : List Char), hasCRLF buf = false → chunksOk buf chunks →
    framerRun norm buf chunks =
      ((splitCRLF (buf ++ chunks.join)).dropLast.map norm,
        lastSeg (splitCRLF (buf ++ chunks.join))) := by
  intro chunks
  induction chunks with
  | nil =>
    intro norm buf hb _
    rw [show (List.join ([] : List (List Char))) = [] from rfl, List.append_nil,
      splitCRLF_of_no_crlf buf hb]
    rfl
  | cons c cs ih =>
    intro norm buf hb hok
    rcases hok with ⟨hj1, hok2⟩
    rcases hsp : splitCRLF c with _ | ⟨h, t⟩
    · exact absurd hsp (splitCRLF_ne_nil _)
    have hA : splitCRLF (buf ++ c) = (buf ++ h) :: t :=
      splitCRLF_buffer_prepend buf c hb hj1 h t hsp
    rw [hA] at hok2
    have hb1 : hasCRLF (lastSeg ((buf ++ h) :: t)) = false := by
      refine mem_splitCRLF_no_crlf (buf ++ c) _ ?_
      rw [hA]
      exact lastSeg_mem (by simp)
    have hstep : framerStep buf c = (((buf ++ h) :: t).dropLast, lastSeg ((buf ++ h) :: t)) := by
      rw [framerStep, hsp]
      rfl
    have hrun : framerRun norm buf (c :: cs) =
        ((((buf ++ h) :: t).dropLast).map norm ++
            (framerRun norm (lastSeg ((buf ++ h) :: t)) cs).1,
          (framerRun norm (lastSeg ((buf ++ h) :: t)) cs).2) := by
      rw [framerRun, hstep]
    have hjB : ¬((buf ++ c).getLast? = some '\r' ∧ cs.join.head? = some '\n') := by
      intro hx
      refine chunksOk_flatten_head cs (lastSeg ((buf ++ h) :: t)) hb1 hok2 ⟨?_, hx.2⟩
      have hcr := lastSeg_ends_cr (buf ++ c) hx.1
      rw [hA] at hcr
      exact hcr
    have hB := splitCRLF_append (buf ++ c) cs.join hjB
    rw [hA] at hB
    rw [hrun, ih norm (lastSeg ((buf ++ h) :: t)) hb1 hok2,
      show buf ++ (c :: cs).join = (buf ++ c) ++ cs.join from
        (List.append_assoc buf c cs.join).symm,
      hB]
    rw [dropLast_append_ne _ _ (splitCRLF_ne_nil _), List.map_append]
    simp only [lastSeg]
    rw [List.getLast?_append_of_ne_nil _ (splitCRLF_ne_nil _)]

/-- C2 (amended): for chunkings in which no chunk boundary splits a CRLF
pair (`chunksOk`), the lines emitted by the framer are, in order, the
normalization of the CRLF-split of the concatenation with its final
piece removed — empty interior lines included, not discarded — and the
frame buffer retains that final piece; when the concatenation ends in
CRLF the final piece is empty, so the emitted lines are exactly the
normalized CRLF-split minus the trailing empty piece. -/
theorem c2_framer_lines (norm : List Char → List Char) (chunks : List (List Char))
    (hok : chunksOk [] chunks) :
    framerRun norm [] chunks =
      ((splitCRLF chunks.join).dropLast.map norm, lastSeg (splitCRLF chunks.join)) ∧
    (∀ u, chunks.join = u ++ chars "\r\n" →
      framerRun norm [] chunks = ((splitCRLF chunks.join).dropLast.map norm, [])) := by
  have hmain := framerRun_split chunks norm [] rfl hok
  rw [List.nil_append] at hmain
  refine ⟨hmain, ?_⟩
  intro u hu
  rw [hmain]
  have hjB : ¬(u.getLast? = some '\r' ∧ (chars "\r\n").head? = some '\n') := by
    intro hx
    exact absurd hx.2 (by decide)
  have hB := splitCRLF_append u (chars "\r\n") hjB
  have hL := splitCRLF_append_crlf (lastSeg (splitCRLF u))
    (mem_splitCRLF_no_crlf u _ (lastSeg_mem (splitCRLF_ne_nil u)))
  rw [hu, hB, hL, show lastSeg ((splitCRLF u).dropLast ++ [lastSeg (splitCRLF u), []]) =
    lastSeg [lastSeg (splitCRLF u), []] from by
      simp only [lastSeg]
      rw [List.getLast?_append_of_ne_nil _ (by simp)]]
  rfl

/-- The spec's framing description fails on the code: an inbound
`"a\r\n\r\n"` chunk makes the framer emit the empty line (the spec
discards empties), and a chunk boundary between `"a\r"` and `"\n\r\n"`
makes it emit the single line `"a\r\n"` — the carried `"a\r"` glued to
`"\n"` — instead of the line `"a"` of the concatenation's CRLF-split. -/
theorem c2_counterexample :
    framerRun id [] [chars "a\r\n\r\n"] = ([chars "a", []], []) ∧
    ([chars "a", ([] : List Char)] ≠ [chars "a"]) ∧
    framerRun id [] [chars "a\r", chars "\n\r\n"] = ([chars "a\r\n"], []) ∧
    chars "a\r\n" ≠ chars "a" :=
  ⟨rfl, by decide, rfl, by decide⟩

theorem c2_witness :
    (framerRun id [] [chars "a\r\nb", chars "b2\r\n"] = ([chars "a", chars "bb2"], []) ∧
     (∀ u, ([chars "a\r\nb", chars "b2\r\n"] : List (List Char)).join = u ++ chars "\r\n" →
        framerRun id [] [chars "a\r\nb", chars "b2\r\n"] = ([chars "a", chars "bb2"], []))) :=
  c2_framer_lines id [chars "a\r\nb", chars "b2\r\n"] ⟨by decide, by decide, trivial⟩

theorem NickTrace_refl (st : St) : NickTrace st st :=
  ⟨0, by simp, by simp⟩

theorem NickTrace_trans {a b c : St} (h1 : NickTrace a b) (h2 : NickTrace b c) :
    NickTrace a c := by
  obtain ⟨j1, hn1, hw1⟩ := h1
  obtain ⟨j2, hn2, hw2⟩ := h2
  refine ⟨j1 + j2, ?_, ?_⟩
  · rw [hn2, hn1, List.drop_drop, Nat.add_comm]
  · rw [hw2, hw1, hn1, List.append_assoc, ← List.map_append, ← List.take_add]

theorem NickTrace_of_eq {st st2 : St} (hn : st2.nicknames = st.nicknames)
    (hw : nickWrites st2.writes = nickWrites st.writes) : NickTrace st st2 :=
  ⟨0, by simp [hn], by simp [hw]⟩

theorem NickTrace_writes_append {st st2 : St} {extra : List (List Char)}
    (hn : st2.nicknames = st.nicknames) (hw : st2.writes = st.writes ++ extra)
    (hex : ∀ w ∈ extra, (chars "NICK ").isPrefixOf w = false) : NickTrace st st2 :=
  NickTrace_of_eq hn
    (by rw [hw, nickWrites_append, nickWrites_of_no_nick hex, List.append_nil])

theorem NickTrace_raw_head {st st2 : St} {m : Msg} (c : Char) (rest : List Char)
    (h : raw st m = .ok st2) (hm : joinMsg m = c :: rest) (hc : c ≠ 'N') :
    NickTrace st st2 := by
  rcases raw_ok_shape h with rfl | rfl
  · exact NickTrace_refl _
  · refine NickTrace_writes_append rfl rfl ?_
    intro w hw
    simp only [List.mem_singleton] at hw
    subst hw
    rw [hm]
    exact not_nick_of_head hc

theorem NickTrace_resolvePromise (st : St) (r : Outcome) :
    NickTrace st (resolvePromise st r) :=
  NickTrace_of_eq rfl rfl

theorem sendUser_trace {st st2 : St} (h : sendUser st = .ok st2) : NickTrace st st2 :=
  NickTrace_raw_head 'U' (chars "SER " ++ st.username ++ chars " 8 * :" ++ st.realname)
    h (by rfl) (by decide)

/-- While connected, `sendNick` consumes exactly the head nickname and
writes exactly its `NICK` line (or `QUIT` on exhaustion, consuming
nothing). -/
theorem sendNick_trace {st st2 : St} (h : sendNick st = .ok st2)
    (hc : isConnected st = true) : NickTrace st st2 := by
  unfold sendNick at h
  cases hn : st.nicknames with
  | nil =>
    simp only [hn] at h
    obtain ⟨a, ha, hb⟩ := exc_bind_ok h
    cases pure_ok_inj hb
    exact NickTrace_trans (NickTrace_raw_head 'Q' (chars "UIT") ha (by rfl) (by decide))
      (NickTrace_resolvePromise a _)
  | cons n rest =>
    simp only [hn] at h
    have hc2 : isConnected { st with nickname := some n, nicknames := rest } = true := hc
    by_cases hmem : '\n' ∈ joinMsg (.arr [chars "NICK", n])
    · rw [raw, if_neg (by simp [hc2]), if_pos (by simpa using hmem)] at h
      exact absurd h (by simp [throw, throwThe, MonadExceptOf.throw])
    · rw [raw_connected hc2 hmem] at h
      cases Except.ok.inj h
      refine ⟨1, ?_, ?_⟩
      · rw [hn]
        rfl
      · rw [hn]
        have e : joinMsg (.arr [chars "NICK", n]) ++ chars "\r\n" =
            chars "NICK " ++ n ++ chars "\r\n" := rfl
        show nickWrites (st.writes ++ [joinMsg (.arr [chars "NICK", n]) ++ chars "\r\n"]) = _
        rw [e, nickWrites_append, nickWrites_single_nick]
        rfl

theorem capReqWant_trace {st st2 : St} {c : List Char}
    (h : capReqWant st c = .ok st2) : NickTrace st st2 := by
  unfold capReqWant at h
  obtain ⟨a, ha, hb⟩ := exc_bind_ok h
  cases pure_ok_inj hb
  exact NickTrace_trans
    (NickTrace_raw_head 'C' (chars "AP REQ :" ++ c) ha (by rfl) (by decide))
    (NickTrace_of_eq rfl rfl)

theorem foldlM_trace_u {α} {f : St → α → Except String St}
    (hf : ∀ st a st2, f st a = .ok st2 → NickTrace st st2) :
    ∀ (l : List α) (st st2 : St), List.foldlM f st l = .ok st2 → NickTrace st st2 := by
  intro l
  induction l with
  | nil =>
    intro st st2 h
    rw [List.foldlM_nil] at h
    cases pure_ok_inj h
    exact NickTrace_refl _
  | cons a l ih =>
    intro st st2 h
    rw [List.foldlM_cons] at h
    obtain ⟨b, hb, hrest⟩ := exc_bind_ok h
    exact NickTrace_trans (hf st a b hb) (ih b st2 hrest)

theorem foldlM_trace {α} {f : St → α → Except String St}
    (hf : ∀ st a st2, f st a = .ok st2 → isConnected st = true → NickTrace st st2)
    (hp : ∀ st a st2, f st a = .ok st2 → Pres st st2) :
    ∀ (l : List α) (st st2 : St), List.foldlM f st l = .ok st2 →
      isConnected st = true → NickTrace st st2 := by
  intro l
  induction l with
  | nil =>
    intro st st2 h _
    rw [List.foldlM_nil] at h
    cases pure_ok_inj h
    exact NickTrace_refl _
  | cons a l ih =>
    intro st st2 h hc
    rw [List.foldlM_cons] at h
    obtain ⟨b, hb, hrest⟩ := exc_bind_ok h
    exact NickTrace_trans (hf st a b hb hc) (ih b st2 hrest ((hp st a b hb).2.1 hc))

theorem capLsWants_trace {capsObj : CapsCfg} {sc : List (List Char)} {st st2 : St}
    (h : capLsWants capsObj sc st = .ok st2) : NickTrace st st2 := by
  unfold capLsWants at h
  obtain ⟨w, _, hb⟩ := exc_bind_ok h
  exact foldlM_trace_u (fun st a st2 h => capReqWant_trace h) _ st st2 hb

theorem afterCapResponse_trace {st st2 : St} (h : afterCapResponse st = .ok st2)
    (hc : isConnected st = true) : NickTrace st st2 := by
  simp only [afterCapResponse] at h
  split at h
  · split at h
    · obtain ⟨a, ha, h⟩ := exc_bind_ok h
      obtain ⟨b, hb, h⟩ := exc_bind_ok h
      have hca : isConnected a = true :=
        (Pres_raw_head 'C' (chars "AP END") ha (by rfl) (by decide)).2.1 hc
      have hcb : isConnected b = true := (sendUser_pres hb).2.1 hca
      exact NickTrace_trans
        (NickTrace_raw_head 'C' (chars "AP END") ha (by rfl) (by decide))
        (NickTrace_trans (sendUser_trace hb) (sendNick_trace h hcb))
    · obtain ⟨a, ha, h⟩ := exc_bind_ok h
      cases pure_ok_inj ha
      obtain ⟨b, hb, h⟩ := exc_bind_ok h
      have hcb : isConnected b = true := (sendUser_pres hb).2.1 hc
      exact NickTrace_trans (sendUser_trace hb) (sendNick_trace h hcb)
  · cases pure_ok_inj h
    exact NickTrace_refl _

theorem autoPong_trace {st st2 : St} {line : List Char}
    (h : autoPong st line = .ok st2) : NickTrace st st2 := by
  unfold autoPong at h
  split at h
  · exact NickTrace_raw_head 'P'
      (chars "ONG" ++ ' ' :: jsSliceFrom line (jsIndexOfColon line)) h (by rfl) (by decide)
  · cases pure_ok_inj h
    exact NickTrace_refl _

theorem capLsBranch_trace {st st2 : St} {parts : List (List Char)}
    (h : capLsBranch st parts = .ok st2) : NickTrace st st2 := by
  unfold capLsBranch at h
  split at h
  · exact absurd h (by simp [throw, throwThe, MonadExceptOf.throw])
  · obtain ⟨capsObj, _, h⟩ := exc_bind_ok h
    obtain ⟨requires, _, h⟩ := exc_bind_ok h
    split at h
    · split at h
      · obtain ⟨a, ha, h⟩ := exc_bind_ok h
        refine NickTrace_trans ?_ (NickTrace_trans
          (NickTrace_raw_head 'C' (chars "AP REQ :" ++ joinSpace requires) ha
            (by rfl) (by decide))
          (NickTrace_trans ?_ (capLsWants_trace h))) <;>
          exact NickTrace_of_eq rfl rfl
      · obtain ⟨a, ha, h⟩ := exc_bind_ok h
        cases pure_ok_inj h
        refine NickTrace_trans ?_ (NickTrace_trans
          (NickTrace_raw_head 'Q' (chars "UIT") ha (by rfl) (by decide))
          (NickTrace_resolvePromise _ _))
        exact NickTrace_of_eq rfl rfl
    · refine NickTrace_trans ?_ (capLsWants_trace h)
      exact NickTrace_of_eq rfl rfl

theorem capNakBranch_trace {st st2 : St} {parts : List (List Char)}
    (h : capNakBranch st parts = .ok st2) (hc : isConnected st = true) :
    NickTrace st st2 := by
  unfold capNakBranch at h
  obtain ⟨p4, _, h⟩ := exc_bind_ok h
  obtain ⟨capsObj, _, h⟩ := exc_bind_ok h
  obtain ⟨requires, _, h⟩ := exc_bind_ok h
  split at h
  · obtain ⟨a, ha, h⟩ := exc_bind_ok h
    cases pure_ok_inj h
    refine NickTrace_trans ?_ (NickTrace_trans
      (NickTrace_raw_head 'Q' (chars "UIT") ha (by rfl) (by decide))
      (NickTrace_resolvePromise _ _))
    exact NickTrace_of_eq rfl rfl
  · refine NickTrace_trans ?_ (afterCapResponse_trace h hc)
    exact NickTrace_of_eq rfl rfl

theorem capAckBranch_trace {st st2 : St} {parts : List (List Char)}
    (h : capAckBranch st parts = .ok st2) (hc : isConnected st = true) :
    NickTrace st st2 := by
  unfold capAckBranch at h
  obtain ⟨p4, _, h⟩ := exc_bind_ok h
  obtain ⟨capsObj, _, h⟩ := exc_bind_ok h
  obtain ⟨wants, _, h⟩ := exc_bind_ok h
  obtain ⟨acked, _, h⟩ := exc_bind_ok h
  simp only [] at h
  split at h <;> split at h <;>
    first
      | (obtain ⟨b, hb, h⟩ := exc_bind_ok h
         refine NickTrace_trans ?_ (NickTrace_trans
           (NickTrace_raw_head 'A' (chars "UTHENTICATE PLAIN") hb (by rfl) (by decide))
           (afterCapResponse_trace h
             ((Pres_raw_head 'A' (chars "UTHENTICATE PLAIN") hb (by rfl)
               (by decide)).2.1 hc)))
         exact NickTrace_of_eq rfl rfl)
      | (obtain ⟨b, hb, h⟩ := exc_bind_ok h
         cases pure_ok_inj hb
         refine NickTrace_trans ?_ (afterCapResponse_trace h hc)
         exact NickTrace_of_eq rfl rfl)

theorem capBranch_trace {st st2 : St} {parts : List (List Char)}
    (h : capBranch st parts = .ok st2) (hc : isConnected st = true) :
    NickTrace st st2 := by
  unfold capBranch at h
  split at h
  · exact capLsBranch_trace h
  split at h
  · exact capNakBranch_trace h hc
  split at h
  · exact capAckBranch_trace h hc
  · exact afterCapResponse_trace h hc

theorem authBranch_trace {b64 : List Char → List Char} {st st2 : St}
    {parts : List (List Char)} (h : authBranch b64 st parts = .ok st2) :
    NickTrace st st2 := by
  unfold authBranch at h
  split at h
  · exact NickTrace_raw_head 'A'
      (chars "UTHENTICATE" ++ ' ' :: b64 (jsStr st.saslUsername ++ [Char.ofNat 0] ++
        jsStr st.saslUsername ++ [Char.ofNat 0] ++ jsStr st.saslPassword))
      h (by rfl) (by decide)
  · cases pure_ok_inj h
    exact NickTrace_refl _

theorem welcomeBranch_trace {st st2 : St} (h : welcomeBranch st = .ok st2) :
    NickTrace st st2 := by
  unfold welcomeBranch at h
  cases pure_ok_inj h
  exact NickTrace_of_eq rfl rfl

theorem capFailedBranch_trace {st st2 : St} (h : capFailedBranch st = .ok st2)
    (hc : isConnected st = true) : NickTrace st st2 := by
  unfold capFailedBranch at h
  obtain ⟨capsObj, _, h⟩ := exc_bind_ok h
  split at h
  · obtain ⟨a, ha, h⟩ := exc_bind_ok h
    cases pure_ok_inj h
    exact NickTrace_trans (NickTrace_raw_head 'Q' (chars "UIT") ha (by rfl) (by decide))
      (NickTrace_resolvePromise _ _)
  · obtain ⟨a, ha, h⟩ := exc_bind_ok h
    exact NickTrace_trans (sendUser_trace ha)
      (sendNick_trace h ((sendUser_pres ha).2.1 hc))

theorem startupHandler_trace {b64 : List Char → List Char} {st st2 : St} {line : List Char}
    (h : startupHandler b64 st line = .ok st2) (hc : isConnected st = true) :
    NickTrace st st2 := by
  rw [startupHandler] at h
  simp only [] at h
  split at h
  · cases pure_ok_inj h
    exact NickTrace_resolvePromise _ _
  split at h
  · cases pure_ok_inj h
    exact NickTrace_refl _
  split at h
  · exact capBranch_trace h hc
  split at h
  · split at h
    · cases pure_ok_inj h
      exact NickTrace_resolvePromise _ _
    · cases pure_ok_inj h
      exact NickTrace_refl _
  split at h
  · exact authBranch_trace h
  split at h
  · exact NickTrace_raw_head 'C' (chars "AP END") h (by rfl) (by decide)
  split at h
  · exact welcomeBranch_trace h
  split at h
  · exact capFailedBranch_trace h hc
  split at h
  · cases pure_ok_inj h
    exact NickTrace_resolvePromise _ _
  split at h
  · exact sendNick_trace h hc
  · cases pure_ok_inj h
    exact NickTrace_refl _

theorem dispatchLine_trace {b64 : List Char → List Char} {st st2 : St} {line : List Char}
    (h : dispatchLine b64 st line = .ok st2) (hc : isConnected st = true) :
    NickTrace st st2 := by
  unfold dispatchLine at h
  obtain ⟨a, ha, h⟩ := exc_bind_ok h
  have h1 := autoPong_trace ha
  have hca : isConnected a = true := (autoPong_pres ha).2.1 hc
  split at h
  · exact NickTrace_trans h1 (startupHandler_trace h hca)
  · cases pure_ok_inj h
    exact h1

theorem onDataLines_trace {norm b64 : List Char → List Char} {st st2 : St}
    {chunk : List Char} (h : onDataLines norm b64 st chunk = .ok st2)
    (hc : isConnected st = true) : NickTrace st st2 := by
  unfold onDataLines at h
  rcases hfs : framerStep st.frameBuffer chunk with ⟨lines, buffer⟩
  rw [hfs] at h
  simp only [] at h
  refine NickTrace_trans
    (@NickTrace_of_eq st { st with frameBuffer := buffer } rfl rfl) ?_
  exact foldlM_trace (fun st l st2 hl hcl => dispatchLine_trace hl hcl)
    (fun st l st2 hl => dispatchLine_pres hl) lines _ st2 h hc

theorem processChunk_trace {norm b64 : List Char → List Char} {st st2 : St}
    {chunk : List Char} (h : processChunk norm b64 st chunk = .ok st2)
    (hc : isConnected st = true) : NickTrace st st2 := by
  unfold processChunk at h
  obtain ⟨a, ha, h⟩ := exc_bind_ok h
  cases pure_ok_inj h
  refine NickTrace_trans (onDataLines_trace ha hc) ?_
  split <;> exact NickTrace_of_eq rfl rfl

theorem connectInit_trace (st : St) : NickTrace st (connectInit st) := by
  unfold connectInit
  rcases hc : st.capabilities with _ | caps <;> simp only [hc] <;>
    exact NickTrace_of_eq rfl rfl

theorem connectInit_status (st : St) : (connectInit st).status = Status.starting := by
  unfold connectInit
  rcases hc : st.capabilities with _ | caps <;> simp only [hc]

theorem proxyStep_trace {st st2 : St} (h : proxyStep st = .ok st2) : NickTrace st st2 := by
  unfold proxyStep at h
  rcases hp : st.proxy with _ | proxy <;> rw [hp] at h
  · cases pure_ok_inj h
    exact NickTrace_refl _
  · exact NickTrace_raw_head 'W'
      (chars "EBIRC" ++ ' ' :: joinSpace [proxy.password, proxy.username,
        proxy.hostname, proxy.ip])
      h (by rfl) (by decide)

theorem passwordStep_trace {st st2 : St} (h : passwordStep st = .ok st2) :
    NickTrace st st2 := by
  unfold passwordStep at h
  rcases hp : st.password with _ | password <;> rw [hp] at h
  · cases pure_ok_inj h
    exact NickTrace_refl _
  · exact NickTrace_raw_head 'P' (chars "ASS" ++ ' ' :: password) h (by rfl) (by decide)

theorem capsTailStep_trace {st st2 : St} (h : capsTailStep st = .ok st2)
    (hc : isConnected st = true) : NickTrace st st2 := by
  unfold capsTailStep at h
  rcases hcc : st.capabilities with _ | caps <;> rw [hcc] at h
  · obtain ⟨a, ha, h⟩ := exc_bind_ok h
    exact NickTrace_trans (sendUser_trace ha)
      (sendNick_trace h ((sendUser_pres ha).2.1 hc))
  · exact NickTrace_raw_head 'C' (chars "AP LS") h (by rfl) (by decide)

/-- The transport-connect handler consumes at most the head nickname and
writes exactly the `NICK`s it consumes, for every configuration —
`connectInit` forces status `starting`, so every write goes through. -/
theorem onConnect_trace {st st2 : St} (h : onConnect st = .ok st2) : NickTrace st st2 := by
  unfold onConnect at h
  split at h
  · cases pure_ok_inj h
    exact NickTrace_refl _
  · obtain ⟨a, ha, h⟩ := exc_bind_ok h
    obtain ⟨b, hb, h⟩ := exc_bind_ok h
    have hcI : isConnected (connectInit st) = true :=
      isConnected_of_starting (connectInit_status st)
    have hca : isConnected a = true := (proxyStep_pres ha).2.1 hcI
    have hcb : isConnected b = true := (passwordStep_pres hb).2.1 hca
    exact NickTrace_trans (connectInit_trace st) (NickTrace_trans (proxyStep_trace ha)
      (NickTrace_trans (passwordStep_trace hb) (capsTailStep_trace h hcb)))

theorem connect_trace {st st2 : St} (h : connect st = .ok st2) : NickTrace st st2 := by
  unfold connect at h
  split at h
  · exact absurd h (by simp [throw, throwThe, MonadExceptOf.throw])
  · cases pure_ok_inj h
    exact NickTrace_of_eq rfl rfl

/-- C3: for every configuration — any capabilities, proxy, password,
SASL settings — the `NICK`s the session writes are exactly, in order,
an initial segment of `config.nicknames`, over any transport-connect
and inbound chunk sequence (part 1: so the first `NICK` sent is
`nicknames[0]` and the `(k+1)`-th is `nicknames[k]`); from any
pre-001 startup state, `k` consecutive nickname-rejection numerics
each pop and send the next nickname (part 2); and a rejection numeric
arriving with the remaining list empty writes `QUIT` as the final
write and settles `Fail(NicknamesUnavailable)` with no further `NICK`
(part 3). -/
theorem c3_nick_rotation (norm b64 : List Char → List Char) :
    (∀ (cfg : Config) (chunks : List (List Char)) (st : St),
      (connect (mkSt cfg) >>= onConnect >>= fun s =>
        chunks.foldlM (processChunk norm b64) s) = .ok st →
      ∃ j, st.nicknames = cfg.nicknames.drop j ∧
        nickWrites st.writes = (cfg.nicknames.take j).map
          (fun n => chars "NICK " ++ n ++ chars "\r\n")) ∧
    (∀ (lines : List (List Char)) (st : St),
      (∀ l ∈ lines, RejLine l) → st.status = Status.starting →
      st.startupAttached = true → st.settled = none →
      lines.length ≤ st.nicknames.length → (∀ n ∈ st.nicknames, '\n' ∉ n) →
      ∃ st2, lines.foldlM (dispatchLine b64) st = .ok st2 ∧
        st2.nicknames = st.nicknames.drop lines.length ∧
        nickWrites st2.writes = nickWrites st.writes ++
          (st.nicknames.take lines.length).map
            (fun n => chars "NICK " ++ n ++ chars "\r\n") ∧
        st2.status = Status.starting ∧ st2.startupAttached = true ∧ st2.settled = none) ∧
    (∀ (st : St) (l p0 p1 : List Char) (ps : List (List Char)),
      splitSpace l = p0 :: p1 :: ps → p0 ≠ chars "ERROR" → p0 ≠ chars "PING" →
      p0 ≠ chars "AUTHENTICATE" → p1 ∈ rejectionNumerics → '\n' ∉ l →
      st.status = Status.starting → st.startupAttached = true → st.settled = none →
      st.nicknames = [] →
      ∃ st2, dispatchLine b64 st l = .ok st2 ∧
        st2.settled = some (Outcome.fail ConnectFailure.nicknamesUnavailable) ∧
        st2.writes.getLast? = some (chars "QUIT\r\n") ∧
        nickWrites st2.writes = nickWrites st.writes) := by
  refine ⟨?_, rejRun b64, ?_⟩
  · intro cfg chunks st h
    rw [connect_ok (mkSt cfg) rfl, ok_bind] at h
    obtain ⟨s2, h2, h3⟩ := exc_bind_ok h
    have ht1 : NickTrace (mkSt cfg) { mkSt cfg with status := Status.connecting } :=
      NickTrace_of_eq rfl rfl
    have hcs2 : isConnected s2 = true := (onConnect_pres h2).2.1 rfl
    have ht : NickTrace (mkSt cfg) st :=
      NickTrace_trans ht1 (NickTrace_trans (onConnect_trace h2)
        (foldlM_trace (fun st c st2 hc hcc => processChunk_trace hc hcc)
          (fun st c st2 hc => processChunk_pres hc) chunks s2 st h3 hcs2))
    obtain ⟨j, hn, hw⟩ := ht
    exact ⟨j, hn, hw⟩
  · intro st l p0 p1 ps hsplit h0 h1 h2 hr hln hstat hatt hset hnil
    obtain ⟨extra, hd, hex⟩ := dispatchLine_rejection hsplit h0 h1 h2 hr hln hatt
    have hsn := sendNick_nil
      (show ({ st with writes := st.writes ++ extra } : St).nicknames = [] from hnil)
      (isConnected_of_starting
        (show ({ st with writes := st.writes ++ extra } : St).status = Status.starting
          from hstat))
    refine ⟨resolvePromise { st with writes := (st.writes ++ extra) ++ [chars "QUIT\r\n"] }
      (Outcome.fail ConnectFailure.nicknamesUnavailable), ?_, ?_, ?_, ?_⟩
    · rw [hd, hsn]
    · simp [resolvePromise, hset]
    · show ((st.writes ++ extra) ++ [chars "QUIT\r\n"]).getLast? = _
      simp
    · show nickWrites ((st.writes ++ extra) ++ [chars "QUIT\r\n"]) = _
      rw [nickWrites_append, nickWrites_append, nickWrites_of_no_nick hex,
        show nickWrites [chars "QUIT\r\n"] = [] from by decide, List.append_nil,
        List.append_nil]

theorem c3_witness :
    (∃ st, (connect (mkSt ⟨chars "u", chars "r", [chars "a", chars "b"],
          some (chars "pw"), none, none, none, none⟩) >>= onConnect >>= fun s =>
        [chars ":s 433 * a :x\r\n"].foldlM (processChunk id id) s) = .ok st ∧
      (∃ j, st.nicknames = ([chars "a", chars "b"] : List (List Char)).drop j ∧
        nickWrites st.writes = (([chars "a", chars "b"] : List (List Char)).take j).map
          (fun n => chars "NICK " ++ n ++ chars "\r\n")) ∧
      nickWrites st.writes = [chars "NICK a\r\n", chars "NICK b\r\n"]) ∧
    (∃ st2, [chars ":s 433 * a :x"].foldlM (dispatchLine id)
        { happyStarting with nicknames := [chars "nb"] } = .ok st2 ∧
      st2.nicknames = ([chars "nb"] : List (List Char)).drop 1 ∧
      nickWrites st2.writes = nickWrites happyStarting.writes ++
        (([chars "nb"] : List (List Char)).take 1).map
          (fun n => chars "NICK " ++ n ++ chars "\r\n") ∧
      st2.status = Status.starting ∧ st2.startupAttached = true ∧ st2.settled = none) ∧
    (∃ st2, dispatchLine id happyStarting (chars ":s 433 * a :x") = .ok st2 ∧
      st2.settled = some (Outcome.fail ConnectFailure.nicknamesUnavailable) ∧
      st2.writes.getLast? = some (chars "QUIT\r\n") ∧
      nickWrites st2.writes = nickWrites happyStarting.writes) := by
  have hrl : RejLine (chars ":s 433 * a :x") :=
    ⟨by decide, chars ":s", chars "433", [chars "*", chars "a", chars ":x"],
      by decide, by decide, by decide, by decide, by decide⟩
  have hall : ∀ l ∈ [chars ":s 433 * a :x"], RejLine l := by
    intro l hl
    rw [List.mem_singleton] at hl
    subst hl
    exact hrl
  refine ⟨⟨_, rfl, (c3_nick_rotation id id).1 ⟨chars "u", chars "r",
      [chars "a", chars "b"], some (chars "pw"), none, none, none, none⟩
      [chars ":s 433 * a :x\r\n"] _ rfl, rfl⟩, ?_, ?_⟩
  · exact (c3_nick_rotation id id).2.1 [chars ":s 433 * a :x"]
      { happyStarting with nicknames := [chars "nb"] } hall rfl rfl rfl
      (by decide) (by decide)
  · exact (c3_nick_rotation id id).2.2 happyStarting (chars ":s 433 * a :x") (chars ":s")
      (chars "433") [chars "*", chars "a", chars ":x"] (by decide) (by decide) (by decide)
      (by decide) (by decide) (by decide) rfl rfl rfl rfl

end IrcSocket
